import Mathlib

/-!
Verification of the ImageLibrary backend core (src/routes/media.js).

The file shallowly embeds the data model (Media documents, Album documents,
LockedFolder session documents) and the route handlers that mutate them.
Mongoose collections become Lean lists of records; `findOne` becomes
`List.find?`; `save` / `findByIdAndUpdate` / `updateMany` become mapped
updates; `findByIdAndDelete` / `deleteOne` become filters.  Timestamps are
naturals (milliseconds); `new Date()` / `Date.now()` inside one request is a
single `now` parameter.  The Cloudinary collaborator is an oracle parameter
(`cloudOk`), and the sha256-based `generateUrlHash` is an oracle function
parameter `hashFn : String → Nat → String` (name, current instant).
-/

/-- A Media document (one uploaded asset), mirroring the fields used by
`src/routes/media.js`. -/
structure Asset where
  id : Nat
  userId : Nat
  originalName : String
  mediaType : String
  url : String
  publicId : String
  size : Nat
  favorite : Bool
  isInTrash : Bool
  trashedAt : Option Nat
  scheduledDeleteAt : Option Nat
  isLocked : Bool
  lockedAt : Option Nat
  albumId : Option Nat
  createdAt : Nat
deriving DecidableEq, Repr

/-- An Album/folder document, mirroring `src/models/album.js` as used by the
routes: `media` is the ordered list of member asset ids, `coverUrl` the
derived cover, `parentAlbumId` the tree edge. -/
structure Album where
  id : Nat
  userId : Nat
  name : String
  description : String
  category : String
  coverUrl : String
  media : List Nat
  parentAlbumId : Option Nat
  isFolder : Bool
  createdAt : Nat
  updatedAt : Nat
deriving DecidableEq, Repr

/-- A LockedFolder session document (per user). -/
structure LockedSession where
  userId : Nat
  hasAccess : Bool
  sessionExpires : Option Nat
deriving DecidableEq, Repr

/-- The persistent store: the three Mongo collections. -/
structure DB where
  assets : List Asset
  albums : List Album
  sessions : List LockedSession
deriving DecidableEq, Repr

/-- Embeds `Media.findOne({_id, userId})`. -/
def findAsset (db : DB) (id uid : Nat) : Option Asset :=
  db.assets.find? (fun a => a.id = id ∧ a.userId = uid)

/-- Embeds `Media.findById(id)` (not user-scoped). -/
def findAssetById (db : DB) (id : Nat) : Option Asset :=
  db.assets.find? (fun a => a.id = id)

/-- Embeds `Album.findOne({_id, userId})`. -/
def findAlbum (db : DB) (id uid : Nat) : Option Album :=
  db.albums.find? (fun a => a.id = id ∧ a.userId = uid)

/-- Embeds `Album.findById(id)` (not user-scoped). -/
def findAlbumById (db : DB) (id : Nat) : Option Album :=
  db.albums.find? (fun a => a.id = id)

/-- Embeds `doc.save()` for a Media document: overwrite the record with this id. -/
def saveAsset (db : DB) (m : Asset) : DB :=
  { db with assets := db.assets.map (fun a => if a.id = m.id then m else a) }

/-- Embeds `doc.save()` for an Album document. -/
def saveAlbum (db : DB) (al : Album) : DB :=
  { db with albums := db.albums.map (fun a => if a.id = al.id then al else a) }

/-- Embeds `Album.findByIdAndDelete(id)`. -/
def removeAlbum (db : DB) (id : Nat) : DB :=
  { db with albums := db.albums.filter (fun a => a.id ≠ id) }

/-- Embeds `Media.updateMany({_id: {$in: ids}}, {$unset: {albumId: 1}})` — note: not
user-scoped in the source. -/
def clearAlbumIds (db : DB) (ids : List Nat) : DB :=
  { db with assets :=
      db.assets.map (fun a => if a.id ∈ ids then { a with albumId := none } else a) }

/-- Embeds `Album.find({parentAlbumId: pid})` — note: not user-scoped in the source. -/
def childrenOf (db : DB) (pid : Nat) : List Album :=
  db.albums.filter (fun a => a.parentAlbumId = some pid)

/-- Generic route outcome: an error response body, or a result. -/
inductive RouteOut (α : Type) where
  | err : String → RouteOut α
  | ok : α → RouteOut α
deriving DecidableEq, Repr

/-- The fixed 15 GB storage ceiling (`15 * 1024 * 1024 * 1024` bytes). -/
def totalLimit : Nat := 15 * 1024 * 1024 * 1024

/-- What `calculateUserStorage` returns. -/
structure StorageInfo where
  used : Nat
  total : Nat
  percentage : ℚ
deriving DecidableEq, Repr

/-- Embeds `calculateUserStorage(userId)`: sums `size` over the user's non-trashed
media, with the fixed 15 GB total and `percentage = used / total * 100`. -/
def calculateUserStorage (db : DB) (uid : Nat) : StorageInfo :=
  let media := db.assets.filter (fun a => a.userId = uid ∧ a.isInTrash = false)
  let totalUsed := media.foldl (fun acc item => acc + item.size) 0
  { used := totalUsed
    total := totalLimit
    percentage := (totalUsed : ℚ) / (totalLimit : ℚ) * 100 }

/-- Embeds `POST /:id/favorite`: toggle the favorite flag of an owned asset. -/
def toggleFavorite (db : DB) (uid id : Nat) : RouteOut Bool × DB :=
  match findAsset db id uid with
  | none => (.err "Media not found", db)
  | some m =>
    let m1 := { m with favorite := !m.favorite }
    (.ok m1.favorite, saveAsset db m1)

/-- The fixed 15-day retention window in milliseconds. -/
def retentionMs : Nat := 15 * 24 * 60 * 60 * 1000

/-- Embeds `POST /:id/trash`: mark an owned asset trashed, stamping `trashedAt = now`
and `scheduledDeleteAt = now + 15 days`. -/
def trashMedia (db : DB) (now uid id : Nat) : RouteOut Unit × DB :=
  match findAsset db id uid with
  | none => (.err "Media not found", db)
  | some m =>
    let m1 := { m with isInTrash := true, trashedAt := some now,
                       scheduledDeleteAt := some (now + retentionMs) }
    (.ok (), saveAsset db m1)

/-- Embeds `POST /:id/restore`: clear the trash fields of an owned, trashed asset. -/
def restoreMedia (db : DB) (uid id : Nat) : RouteOut Unit × DB :=
  match db.assets.find? (fun a => a.id = id ∧ a.userId = uid ∧ a.isInTrash = true) with
  | none => (.err "Media not found in trash", db)
  | some m =>
    let m1 := { m with isInTrash := false, trashedAt := none,
                       scheduledDeleteAt := none }
    (.ok (), saveAsset db m1)

/-- Embeds `POST /bulk-trash`: one `updateMany` over the requested ids scoped to the
caller; the reported count is `mediaIds.length`. -/
def bulkTrash (db : DB) (now uid : Nat) (mediaIds : List Nat) : RouteOut Nat × DB :=
  if mediaIds.isEmpty then (.err "No media selected", db)
  else
    let db1 := { db with assets := db.assets.map (fun a =>
      if a.id ∈ mediaIds ∧ a.userId = uid then
        { a with isInTrash := true, trashedAt := some now,
                 scheduledDeleteAt := some (now + retentionMs) }
      else a) }
    (.ok mediaIds.length, db1)

/-- Embeds `POST /bulk-restore`: one `updateMany` over the requested ids scoped to the
caller and to `isInTrash: true`; the reported count is `mediaIds.length`. -/
def bulkRestore (db : DB) (uid : Nat) (mediaIds : List Nat) : RouteOut Nat × DB :=
  if mediaIds.isEmpty then (.err "No media selected", db)
  else
    let db1 := { db with assets := db.assets.map (fun a =>
      if a.id ∈ mediaIds ∧ a.userId = uid ∧ a.isInTrash = true then
        { a with isInTrash := false, trashedAt := none, scheduledDeleteAt := none }
      else a) }
    (.ok mediaIds.length, db1)

/-- Embeds `DELETE /permanent/:id`: only a trashed owned asset is found; the
Cloudinary destroy outcome `cloudOk` is swallowed and the record is deleted
regardless. -/
def permanentDelete (db : DB) (uid id : Nat) (cloudOk : Bool) : RouteOut Unit × DB :=
  match db.assets.find? (fun a => a.id = id ∧ a.userId = uid ∧ a.isInTrash = true) with
  | none => (.err "Media not found", db)
  | some m =>
    let _ := cloudOk
    (.ok (), { db with assets := db.assets.filter (fun a => a.id ≠ m.id) })

/-- The locked-folder access check inlined in both locked routes: a session
record exists, `hasAccess` is true, `sessionExpires` is set and strictly in
the future. -/
def lockedHasAccess (db : DB) (now uid : Nat) : Bool :=
  match db.sessions.find? (fun s => s.userId = uid) with
  | none => false
  | some s =>
    s.hasAccess && (match s.sessionExpires with
      | none => false
      | some e => decide (now < e))

/-- Embeds `POST /locked/access/:hash`: after the access check, the route fetches
`Media.findOne({userId, isLocked: true})` — only the first locked asset — and
compares the given hash against that one asset's freshly recomputed token. -/
def accessLocked (db : DB) (hashFn : String → Nat → String) (now uid : Nat)
    (hash : String) : RouteOut String :=
  if !(lockedHasAccess db now uid) then .err "Access denied. Please verify password first."
  else
    match db.assets.find? (fun a => a.userId = uid ∧ a.isLocked = true) with
    | none => .err "Media not found"
    | some m =>
      if hash ≠ hashFn m.originalName now then .err "Invalid access"
      else .ok m.url

/-- Embeds `Media.findByIdAndUpdate(mediaId, ...)` touching only `albumId` — note: not
user-scoped in the source (used with `{albumId: ...}` and `{$unset: {albumId}}`). -/
def setAssetAlbum (db : DB) (id : Nat) (aid : Option Nat) : DB :=
  { db with assets :=
      db.assets.map (fun a => if a.id = id then { a with albumId := aid } else a) }

/-- Embeds `POST /:albumId/add-media`: attach an owned asset to an owned album.  The
route pushes the id, points the asset's `albumId` at the album and refreshes
the cover only when the album became a singleton; it never detaches the asset
from a previous album. -/
def addMedia (db : DB) (uid albumId mediaId : Nat) : RouteOut Unit × DB :=
  match findAlbum db albumId uid with
  | none => (.err "Album not found", db)
  | some album =>
    match findAsset db mediaId uid with
    | none => (.err "Media not found", db)
    | some media =>
      if mediaId ∈ album.media then (.ok (), db)
      else
        let album1 := { album with media := album.media ++ [mediaId] }
        let db1 := saveAlbum db album1
        let db2 := setAssetAlbum db1 mediaId (some album.id)
        let db3 :=
          if album1.media.length = 1 then saveAlbum db2 { album1 with coverUrl := media.url }
          else db2
        (.ok (), db3)

/-- The cover-recompute block shared by remove-media and the detach block of
move-media: save the empty cover when the (already saved) album is empty,
otherwise save the url of the asset at the album's first member id, leaving
the store untouched when that id does not resolve. -/
def recomputeCover (db : DB) (al : Album) : DB :=
  match al.media with
  | [] => saveAlbum db { al with coverUrl := "" }
  | first :: _ =>
    match findAssetById db first with
    | some fm => saveAlbum db { al with coverUrl := fm.url }
    | none => db

/-- Embeds `DELETE /:albumId/remove-media/:mediaId`: filter the id out of the album,
unset the asset's `albumId` unconditionally, then recompute the cover from the
new first member. -/
def removeMedia (db : DB) (uid albumId mediaId : Nat) : RouteOut Unit × DB :=
  match findAlbum db albumId uid with
  | none => (.err "Album not found", db)
  | some album =>
    let album1 := { album with media := album.media.filter (fun i => i ≠ mediaId) }
    let db1 := saveAlbum db album1
    let db2 := setAssetAlbum db1 mediaId none
    (.ok (), recomputeCover db2 album1)

/-- The detach block of `POST /move-media`: remove the asset from its current
album and recompute that album's cover when it pointed at the asset's url. -/
def moveDetach (db : DB) (uid : Nat) (media : Asset) : DB :=
  match media.albumId with
  | none => db
  | some curId =>
    match findAlbum db curId uid with
    | none => db
    | some cur =>
      let cur1 := { cur with media := cur.media.filter (fun i => i ≠ media.id) }
      let dbA := saveAlbum db cur1
      if cur.coverUrl = media.url then recomputeCover dbA cur1 else dbA

/-- The attach block of `POST /move-media`: push into the target (404 if it
does not resolve — after the detach already ran), set the singleton cover, and
save the asset with its new `albumId`. -/
def moveAttach (db : DB) (uid : Nat) (media : Asset) (targetAlbumId : Option Nat) :
    RouteOut Unit × DB :=
  match targetAlbumId with
  | some tid =>
    match findAlbum db tid uid with
    | none => (.err "Target album not found", db)
    | some tgt =>
      let tgt1 :=
        if media.id ∈ tgt.media then tgt else { tgt with media := tgt.media ++ [media.id] }
      let db2 := if media.id ∈ tgt.media then db else saveAlbum db tgt1
      let db3 :=
        if tgt1.media.length = 1 then saveAlbum db2 { tgt1 with coverUrl := media.url }
        else db2
      (.ok (), saveAsset db3 { media with albumId := some tid })
  | none => (.ok (), saveAsset db { media with albumId := none })

/-- Embeds `POST /move-media` (album router, identical logic in the media router):
detach from the current album, then attach to the target. -/
def moveMedia (db : DB) (uid mediaId : Nat) (targetAlbumId : Option Nat) :
    RouteOut Unit × DB :=
  match findAsset db mediaId uid with
  | none => (.err "Media not found", db)
  | some media => moveAttach (moveDetach db uid media) uid media targetAlbumId

/-- One iteration of the `POST /bulk-move-media` loop.  The state carries the
store, the in-memory `targetAlbum.media` list (saved only after the loop) and
`movedCount`.  No cover is ever recomputed in this route. -/
def bulkMoveStep (uid : Nat) (tid : Option Nat) (st : DB × List Nat × Nat)
    (mediaId : Nat) : DB × List Nat × Nat :=
  let db := st.1
  let tgtMedia := st.2.1
  let count := st.2.2
  match findAsset db mediaId uid with
  | none => (db, tgtMedia, count)
  | some media =>
    let db1 :=
      match media.albumId with
      | none => db
      | some curId =>
        match findAlbum db curId uid with
        | none => db
        | some cur => saveAlbum db { cur with media := cur.media.filter (fun i => i ≠ mediaId) }
    match tid with
    | some t =>
      let tgtMedia1 := if mediaId ∈ tgtMedia then tgtMedia else tgtMedia ++ [mediaId]
      (saveAsset db1 { media with albumId := some t }, tgtMedia1, count + 1)
    | none =>
      (saveAsset db1 { media with albumId := none }, tgtMedia, count + 1)

/-- Embeds `POST /bulk-move-media`: fetch the target once, loop over the ids skipping
ones that do not resolve, and save the in-memory target document after the
loop.  Reports the number actually moved; covers are left untouched. -/
def bulkMoveMedia (db : DB) (uid : Nat) (mediaIds : List Nat)
    (targetAlbumId : Option Nat) : RouteOut Nat × DB :=
  if mediaIds.isEmpty then (.err "mediaIds array is required", db)
  else
    match targetAlbumId with
    | some tid =>
      match findAlbum db tid uid with
      | none => (.err "Target album not found", db)
      | some tgt =>
        let r := mediaIds.foldl (bulkMoveStep uid (some tid)) (db, tgt.media, 0)
        (.ok r.2.2, saveAlbum r.1 { tgt with media := r.2.1 })
    | none =>
      let r := mediaIds.foldl (bulkMoveStep uid none) (db, [], 0)
      (.ok r.2.2, r.1)

/-- The per-file body of `POST /upload`: create the Media document (with the
requested `albumId` even when it does not resolve), then push into the album
when it resolves, refreshing the cover only when the album became a
singleton. -/
def uploadOne (db : DB) (uid newId : Nat) (name mtype url pid : String)
    (size now : Nat) (albumId : Option Nat) : DB :=
  let mediaDoc : Asset :=
    { id := newId, userId := uid, originalName := name, mediaType := mtype,
      url := url, publicId := pid, size := size, favorite := false,
      isInTrash := false, trashedAt := none, scheduledDeleteAt := none,
      isLocked := false, lockedAt := none, albumId := albumId, createdAt := now }
  let db1 := { db with assets := db.assets ++ [mediaDoc] }
  match albumId with
  | none => db1
  | some aid =>
    match findAlbum db1 aid uid with
    | none => db1
    | some album =>
      let album1 :=
        if newId ∈ album.media then album else { album with media := album.media ++ [newId] }
      let db2 := if newId ∈ album.media then db1 else saveAlbum db1 album1
      if album1.media.length = 1 then saveAlbum db2 { album1 with coverUrl := url }
      else db2

/-- The `newParentId` request field of `PUT /:albumId/move`: absent, the
literal string root, or an album id. -/
inductive ParentArg where
  | missing
  | root
  | pid : Nat → ParentArg
deriving DecidableEq, Repr

/-- One step of the ancestor walk of `PUT /:albumId/move`: the parent
document fetched via `Album.findById`; `none` both when there is no
`parentAlbumId` (the loop breaks) and when the parent does not resolve (the
`while (currentParent)` condition fails) — in the source each case exits the
loop without rejecting. -/
def parStep (db : DB) (a : Album) : Option Album :=
  match a.parentAlbumId with
  | none => none
  | some pid => findAlbumById db pid

/-- The ancestor walk of `PUT /:albumId/move`: starting from the new parent,
report whether `targetId` occurs in the parent chain.  The source loop is
unbounded, so the embedding takes fuel; `none` means the fuel ran out before
the walk terminated. -/
def walkFindsId (db : DB) : Nat → Nat → Album → Option Bool
  | 0, _, _ => none
  | fuel + 1, targetId, cur =>
    if cur.id = targetId then some true
    else
      match parStep db cur with
      | none => some false
      | some p => walkFindsId db fuel targetId p

/-- The `findOneAndUpdate` tail of `PUT /:albumId/move` setting
`parentAlbumId` and `updatedAt`. -/
def reparent (db : DB) (now uid albumId : Nat) (newParent : Option Nat) :
    RouteOut Album × DB :=
  match findAlbum db albumId uid with
  | none => (.err "Album not found", db)
  | some a =>
    let a1 := { a with parentAlbumId := newParent, updatedAt := now }
    (.ok a1, saveAlbum db a1)

/-- The same tail when `newParentId` is absent from the request body: mongoose
drops the undefined field, so only `updatedAt` changes. -/
def reparentKeep (db : DB) (now uid albumId : Nat) : RouteOut Album × DB :=
  match findAlbum db albumId uid with
  | none => (.err "Album not found", db)
  | some a =>
    let a1 := { a with updatedAt := now }
    (.ok a1, saveAlbum db a1)

/-- Embeds `PUT /:albumId/move`: resolve the new parent, walk its ancestor chain
rejecting the move when `albumId` occurs in it, then reparent.  `none` means
the unbounded source loop did not terminate within the fuel. -/
def moveAlbum (db : DB) (fuel now uid albumId : Nat) (arg : ParentArg) :
    Option (RouteOut Album × DB) :=
  match arg with
  | .pid n =>
    match findAlbum db n uid with
    | none => some (.err "New parent folder not found", db)
    | some p =>
      match walkFindsId db fuel albumId p with
      | none => none
      | some true => some (.err "Cannot move folder into itself or its descendant", db)
      | some false => some (reparent db now uid albumId (some n))
  | .root => some (reparent db now uid albumId none)
  | .missing => some (reparentKeep db now uid albumId)

/-- The `deleteChildren` recursion of `DELETE /:albumId`, processing a worklist
of fetched child documents: recursively delete each child's own children, then
unset `albumId` on its captured member list, then delete the child.  Fueled
because the source recursion is unbounded. -/
def delWork (fuel : Nat) (db : DB) (work : List Album) : Option DB :=
  match work with
  | [] => some db
  | c :: rest =>
    match fuel with
    | 0 => none
    | fuel1 + 1 =>
      match delWork fuel1 db (childrenOf db c.id) with
      | none => none
      | some db1 =>
        let db2 := if c.media.isEmpty then db1 else clearAlbumIds db1 c.media
        delWork (fuel1 + 1) (removeAlbum db2 c.id) rest
termination_by (fuel, work.length)

/-- Embeds `DELETE /:albumId`: resolve the owned album, run `deleteChildren`, unset
`albumId` on the album's own members, and delete the album itself. -/
def deleteAlbum (fuel : Nat) (db : DB) (uid albumId : Nat) :
    Option (RouteOut Unit × DB) :=
  match findAlbum db albumId uid with
  | none => some (.err "Album not found", db)
  | some album =>
    match delWork fuel db (childrenOf db albumId) with
    | none => none
    | some db1 =>
      let db2 := if album.media.isEmpty then db1 else clearAlbumIds db1 album.media
      some (.ok (), removeAlbum db2 albumId)

/-- Asset ids are pairwise distinct (Mongo `_id` uniqueness). -/
abbrev uniqAssets (db : DB) : Prop := (db.assets.map (fun a => a.id)).Nodup

/-- Album ids are pairwise distinct (Mongo `_id` uniqueness). -/
abbrev uniqAlbums (db : DB) : Prop := (db.albums.map (fun a => a.id)).Nodup

/-- Two members of a list with distinct keys that share a key are equal. -/
theorem keyInj {α : Type} {key : α → Nat} :
    ∀ {l : List α}, (l.map key).Nodup →
      ∀ {a b : α}, a ∈ l → b ∈ l → key a = key b → a = b := by
  intro l
  induction l with
  | nil => intro _ a b ha _ _; cases ha
  | cons x t ih =>
    intro h a b ha hb hk
    rw [List.map_cons, List.nodup_cons] at h
    rcases List.mem_cons.mp ha with rfl | ha2
    · rcases List.mem_cons.mp hb with rfl | hb2
      · rfl
      · exact absurd (hk ▸ List.mem_map_of_mem key hb2) h.1
    · rcases List.mem_cons.mp hb with rfl | hb2
      · exact absurd (hk ▸ List.mem_map_of_mem key ha2) h.1
      · exact ih h.2 ha2 hb2 hk

/-- On a list with distinct keys, `find?` with a predicate that pins the key
returns the member carrying that key. -/
theorem find?_key_unique {α : Type} {k : α → Nat} {p : α → Bool} :
    ∀ {l : List α}, (l.map k).Nodup → ∀ {x : α}, x ∈ l → p x = true →
      (∀ a, p a = true → k a = k x) → l.find? p = some x := by
  intro l
  induction l with
  | nil => intro _ x hx; cases hx
  | cons a t ih =>
    intro h x hx hpx hk2
    rw [List.map_cons, List.nodup_cons] at h
    by_cases hpa : p a = true
    · have hka := hk2 a hpa
      have hax : a = x := by
        rcases List.mem_cons.mp hx with rfl | hx2
        · rfl
        · exact absurd (hka ▸ List.mem_map_of_mem k hx2) h.1
      rw [List.find?_cons_of_pos _ hpa, hax]
    · have hx2 : x ∈ t := by
        rcases List.mem_cons.mp hx with rfl | hx2
        · exact absurd hpx hpa
        · exact hx2
      rw [List.find?_cons_of_neg _ hpa]
      exact ih h.2 hx2 hpx hk2

/-- A keyed pointwise update keeps the key multiset when the update preserves
the key of the records it touches. -/
theorem map_update_keys {α : Type} (key : α → Nat) (i : Nat) (g : α → α)
    (l : List α) (hg : ∀ a ∈ l, key a = i → key (g a) = key a) :
    (l.map (fun a => if key a = i then g a else a)).map key = l.map key := by
  rw [List.map_map]
  apply List.map_congr_left
  intro a ha
  by_cases h : key a = i
  · simp only [Function.comp_apply]
    rw [if_pos h]
    exact hg a ha h
  · simp only [Function.comp_apply]
    rw [if_neg h]

/-- A record whose key the update does not target survives unchanged. -/
theorem mem_map_update_of_ne {α : Type} {key : α → Nat} {i : Nat} {g : α → α}
    {l : List α} {a : α} (ha : a ∈ l) (hne : ¬ key a = i) :
    a ∈ l.map (fun b => if key b = i then g b else b) := by
  have := List.mem_map_of_mem (fun b => if key b = i then g b else b) ha
  simpa [if_neg hne] using this

/-- The update's image of a targeted record is a member of the result. -/
theorem mem_map_update_self {α : Type} {key : α → Nat} {i : Nat} {g : α → α}
    {l : List α} {x : α} (hx : x ∈ l) (hkey : key x = i) :
    g x ∈ l.map (fun b => if key b = i then g b else b) := by
  have := List.mem_map_of_mem (fun b => if key b = i then g b else b) hx
  simpa [if_pos hkey] using this

/-- Inverting a successful `findAsset`. -/
theorem findAsset_some {db : DB} {id uid : Nat} {m : Asset}
    (h : findAsset db id uid = some m) :
    m ∈ db.assets ∧ m.id = id ∧ m.userId = uid := by
  refine ⟨List.mem_of_find?_eq_some h, ?_, ?_⟩ <;>
    · have := List.find?_some h
      simp only [decide_eq_true_eq] at this
      tauto

/-- Inverting a successful `findAlbum`. -/
theorem findAlbum_some {db : DB} {id uid : Nat} {al : Album}
    (h : findAlbum db id uid = some al) :
    al ∈ db.albums ∧ al.id = id ∧ al.userId = uid := by
  refine ⟨List.mem_of_find?_eq_some h, ?_, ?_⟩ <;>
    · have := List.find?_some h
      simp only [decide_eq_true_eq] at this
      tauto

/-- Inverting a successful `findAlbumById`. -/
theorem findAlbumById_some {db : DB} {id : Nat} {al : Album}
    (h : findAlbumById db id = some al) : al ∈ db.albums ∧ al.id = id := by
  refine ⟨List.mem_of_find?_eq_some h, ?_⟩
  have := List.find?_some h
  simpa using this

/-- With unique asset ids, `findAsset` locates any member by its own key. -/
theorem findAsset_of_mem {db : DB} (hu : uniqAssets db) {m : Asset}
    (hm : m ∈ db.assets) : findAsset db m.id m.userId = some m := by
  apply find?_key_unique (k := fun a => a.id) hu hm
  · simp
  · intro a ha
    simp only [decide_eq_true_eq] at ha
    exact ha.1

/-- With unique asset ids, `findAssetById` locates any member by its own key. -/
theorem findAssetById_of_mem {db : DB} (hu : uniqAssets db) {m : Asset}
    (hm : m ∈ db.assets) : findAssetById db m.id = some m := by
  apply find?_key_unique (k := fun a => a.id) hu hm
  · simp
  · intro a ha
    simpa using ha

/-- With unique album ids, `findAlbum` locates any member by its own key. -/
theorem findAlbum_of_mem {db : DB} (hu : uniqAlbums db) {al : Album}
    (hm : al ∈ db.albums) : findAlbum db al.id al.userId = some al := by
  apply find?_key_unique (k := fun a => a.id) hu hm
  · simp
  · intro a ha
    simp only [decide_eq_true_eq] at ha
    exact ha.1

/-- With unique album ids, `findAlbumById` locates any member by its own key. -/
theorem findAlbumById_of_mem {db : DB} (hu : uniqAlbums db) {al : Album}
    (hm : al ∈ db.albums) : findAlbumById db al.id = some al := by
  apply find?_key_unique (k := fun a => a.id) hu hm
  · simp
  · intro a ha
    simpa using ha

/-- Spec-side description of used storage: the sum of sizeBytes over the
user's non-trashed assets (stated from the spec's words, to compare with
`calculateUserStorage`). -/
def specUsedStorage (db : DB) (uid : Nat) : Nat :=
  ((db.assets.filter (fun a => a.userId = uid ∧ a.isInTrash = false)).map (fun a => a.size)).sum

/-- C5: for every user and every asset-store state, the quota snapshot returns
used equal to the sum of sizeBytes over the user's non-trashed assets, the
fixed 15 GB total, and percentage = used/total × 100; the percentage-0-when-
total-0 guard is vacuous because the total is the fixed nonzero constant. -/
theorem C5_quota_snapshot (db : DB) (uid : Nat) :
    (calculateUserStorage db uid).used = specUsedStorage db uid ∧
    (calculateUserStorage db uid).total = totalLimit ∧
    (calculateUserStorage db uid).percentage =
      ((calculateUserStorage db uid).used : ℚ) /
        ((calculateUserStorage db uid).total : ℚ) * 100 ∧
    ((calculateUserStorage db uid).total = 0 → (calculateUserStorage db uid).percentage = 0) := by
  refine ⟨?_, rfl, rfl, ?_⟩
  · show (db.assets.filter (fun a => a.userId = uid ∧ a.isInTrash = false)).foldl
      (fun acc item => acc + item.size) 0 = specUsedStorage db uid
    unfold specUsedStorage
    rw [List.sum_eq_foldl, List.foldl_map]
  · intro h
    have : totalLimit = 0 := h
    simp [totalLimit] at this

/-- Witness for C5 at a concrete store. -/
def mkAsset (i u : Nat) (nm url : String) (sz : Nat) : Asset :=
  { id := i, userId := u, originalName := nm, mediaType := "image", url := url,
    publicId := "p", size := sz, favorite := false, isInTrash := false,
    trashedAt := none, scheduledDeleteAt := none, isLocked := false,
    lockedAt := none, albumId := none, createdAt := 0 }

/-- Concrete album constructor for witnesses. -/
def mkAlbum (i u : Nat) (nm cover : String) (ms : List Nat) (par : Option Nat) : Album :=
  { id := i, userId := u, name := nm, description := "", category := "personal",
    coverUrl := cover, media := ms, parentAlbumId := par, isFolder := true,
    createdAt := 0, updatedAt := 0 }

/-- Concrete store used by several witnesses: user 7 with three assets, one
trashed, and a two-level folder chain. -/
def exDb : DB :=
  { assets := [{ mkAsset 1 7 "a" "u1" 100 with albumId := some 10 },
               mkAsset 2 7 "b" "u2" 200,
               { mkAsset 3 7 "c" "u3" 300 with isInTrash := true }],
    albums := [mkAlbum 10 7 "F1" "u1" [1] none,
               mkAlbum 20 7 "F2" "" [] (some 10),
               mkAlbum 30 7 "F3" "" [] (some 20)],
    sessions := [] }

theorem C5_quota_snapshot_witness :
    (calculateUserStorage exDb 7).used = specUsedStorage exDb 7 ∧
    (calculateUserStorage exDb 7).used = 300 :=
  ⟨(C5_quota_snapshot exDb 7).1, by decide⟩

/-- C10: the favorite toggle flips exactly the favorite flag of the targeted
asset, leaves every other asset record, all albums and all sessions
unchanged, and applying it twice restores the original store exactly. -/
theorem C10_favorite_toggle_frame (db : DB) (uid id : Nat) (m : Asset)
    (hu : uniqAssets db) (hm : findAsset db id uid = some m) :
    (toggleFavorite db uid id).1 = .ok (!m.favorite) ∧
    (toggleFavorite db uid id).2.albums = db.albums ∧
    (toggleFavorite db uid id).2.sessions = db.sessions ∧
    findAsset (toggleFavorite db uid id).2 id uid =
      some { m with favorite := !m.favorite } ∧
    (∀ a ∈ db.assets, ¬ a.id = id → a ∈ (toggleFavorite db uid id).2.assets) ∧
    (toggleFavorite (toggleFavorite db uid id).2 uid id).2 = db := by
  obtain ⟨hmem, hid, huid⟩ := findAsset_some hm
  have hkeys : ((saveAsset db { m with favorite := !m.favorite }).assets.map (fun a => a.id))
      = db.assets.map (fun a => a.id) := by
    apply map_update_keys
    intro a _ ha
    simp [ha]
  have hu1 : uniqAssets (saveAsset db { m with favorite := !m.favorite }) := by
    unfold uniqAssets
    rw [hkeys]; exact hu
  have hmem1 : ({ m with favorite := !m.favorite } : Asset) ∈
      (saveAsset db { m with favorite := !m.favorite }).assets :=
    mem_map_update_self hmem rfl
  have hfind1 : findAsset (saveAsset db { m with favorite := !m.favorite }) id uid =
      some { m with favorite := !m.favorite } := by
    apply find?_key_unique (k := fun a => a.id) hu1 hmem1
    · simp only [decide_eq_true_eq]
      exact ⟨hid, huid⟩
    · intro a ha
      simp only [decide_eq_true_eq] at ha
      simp [ha.1, hid]
  refine ⟨?_, ?_, ?_, ?_, ?_, ?_⟩
  · simp [toggleFavorite, hm]
  · simp [toggleFavorite, hm, saveAsset]
  · simp [toggleFavorite, hm, saveAsset]
  · simp only [toggleFavorite, hm]
    exact hfind1
  · intro a ha hne
    simp only [toggleFavorite, hm]
    exact mem_map_update_of_ne ha (by simpa [hid] using hne)
  · simp only [toggleFavorite, hm, hfind1]
    show saveAsset (saveAsset db { m with favorite := !m.favorite })
      { { m with favorite := !m.favorite } with favorite := !(!m.favorite) } = db
    unfold saveAsset
    cases db with
    | mk las lal lse =>
      simp only [DB.mk.injEq, and_true, List.map_map]
      have : ∀ a ∈ las, ((fun a => if a.id = m.id then
          { m with favorite := !(!m.favorite) } else a) ∘
          (fun a => if a.id = m.id then { m with favorite := !m.favorite } else a)) a = a := by
        intro a ha
        by_cases hcase : a.id = m.id
        · have : a = m := keyInj hu ha hmem hcase
          subst this
          simp [Bool.not_not]
        · simp [Function.comp_apply, if_neg hcase]
      rw [List.map_congr_left this]
      exact List.map_id las

theorem C10_favorite_toggle_frame_witness :
    (toggleFavorite exDb 7 1).1 = .ok true ∧
    (toggleFavorite (toggleFavorite exDb 7 1).2 7 1).2 = exDb := by
  have h := C10_favorite_toggle_frame exDb 7 1
    ({ mkAsset 1 7 "a" "u1" 100 with albumId := some 10 }) (by decide) (by decide)
  exact ⟨h.1, h.2.2.2.2.2⟩

/-- Saving any record at a key and then re-saving the original member with
that key puts the store back exactly. -/
theorem saveAsset_roundtrip (db : DB) (hu : uniqAssets db) {m : Asset} (m1 : Asset)
    (hmem : m ∈ db.assets) (hid1 : m1.id = m.id) :
    saveAsset (saveAsset db m1) m = db := by
  unfold saveAsset
  cases db with
  | mk las lal lse =>
    simp only [DB.mk.injEq, and_true, List.map_map]
    have hmem2 : m ∈ las := hmem
    have hp : ∀ a ∈ las,
        ((fun b => if b.id = m.id then m else b) ∘
          (fun b => if b.id = m1.id then m1 else b)) a = a := by
      intro a ha
      simp only [Function.comp_apply]
      by_cases hcase : a.id = m.id
      · rw [if_pos (show a.id = m1.id by rw [hcase, hid1])]
        rw [if_pos hid1]
        exact (keyInj hu ha hmem2 hcase).symm
      · rw [if_neg (show ¬ a.id = m1.id from fun h => hcase (hid1 ▸ h))]
        exact if_neg hcase
    rw [List.map_congr_left hp]
    exact List.map_id las

/-- Clearing the trash fields of a record that already has them clear is the
identity. -/
theorem clearTrash_eq {m : Asset} (h1 : m.isInTrash = false)
    (h2 : m.trashedAt = none) (h3 : m.scheduledDeleteAt = none) :
    ({ m with isInTrash := false, trashedAt := none, scheduledDeleteAt := none } : Asset) = m := by
  cases m
  simp_all

/-- C6: trashing an active asset stamps trashedAt = now and
scheduledDeleteAt = now + 15 days, and the subsequent restore clears both and
returns the store to exactly its pre-trash state. -/
theorem C6_trash_restore_roundtrip (db : DB) (now uid id : Nat) (m : Asset)
    (hu : uniqAssets db) (hm : findAsset db id uid = some m)
    (hactive : m.isInTrash = false) (hta : m.trashedAt = none)
    (hsd : m.scheduledDeleteAt = none) :
    (trashMedia db now uid id).1 = .ok () ∧
    findAsset (trashMedia db now uid id).2 id uid =
      some { m with isInTrash := true, trashedAt := some now,
                    scheduledDeleteAt := some (now + retentionMs) } ∧
    (trashMedia db now uid id).2.albums = db.albums ∧
    (trashMedia db now uid id).2.sessions = db.sessions ∧
    restoreMedia (trashMedia db now uid id).2 uid id = (.ok (), db) := by
  obtain ⟨hmem, hid, huid⟩ := findAsset_some hm
  set m1 : Asset := { m with isInTrash := true, trashedAt := some now,
                             scheduledDeleteAt := some (now + retentionMs) } with hm1
  have hkeys : ((saveAsset db m1).assets.map (fun a => a.id)) = db.assets.map (fun a => a.id) := by
    apply map_update_keys
    intro a _ ha
    simp [hm1, ha]
  have hu1 : uniqAssets (saveAsset db m1) := by
    unfold uniqAssets
    rw [hkeys]; exact hu
  have hmem1 : m1 ∈ (saveAsset db m1).assets := mem_map_update_self hmem rfl
  have hfind1 : findAsset (saveAsset db m1) id uid = some m1 := by
    apply find?_key_unique (k := fun a => a.id) hu1 hmem1
    · simp [hm1, hid, huid]
    · intro a ha
      simp only [decide_eq_true_eq] at ha
      simp [ha.1, hm1, hid]
  have hfindr : (saveAsset db m1).assets.find?
      (fun a => a.id = id ∧ a.userId = uid ∧ a.isInTrash = true) = some m1 := by
    apply find?_key_unique (k := fun a => a.id) hu1 hmem1
    · simp [hm1, hid, huid]
    · intro a ha
      simp only [decide_eq_true_eq] at ha
      simp [ha.1, hm1, hid]
  refine ⟨?_, ?_, ?_, ?_, ?_⟩
  · simp [trashMedia, hm]
  · simp only [trashMedia, hm]
    rw [← hm1]
    exact hfind1
  · simp [trashMedia, hm, saveAsset]
  · simp [trashMedia, hm, saveAsset]
  · simp only [trashMedia, hm]
    rw [← hm1]
    unfold restoreMedia
    rw [hfindr]
    have hrestored : ({ m1 with isInTrash := false, trashedAt := none, scheduledDeleteAt := none } : Asset) = m := by
      show ({ m with isInTrash := false, trashedAt := none, scheduledDeleteAt := none } : Asset) = m
      exact clearTrash_eq hactive hta hsd
    show (RouteOut.ok (), saveAsset (saveAsset db m1) { m1 with isInTrash := false, trashedAt := none, scheduledDeleteAt := none }) = (RouteOut.ok (), db)
    rw [hrestored, saveAsset_roundtrip db hu m1 hmem rfl]

theorem C6_trash_restore_roundtrip_witness :
    restoreMedia (trashMedia exDb 5 7 2).2 7 2 = (.ok (), exDb) := by
  have h := C6_trash_restore_roundtrip exDb 5 7 2 (mkAsset 2 7 "b" "u2" 200)
    (by decide) (by decide) (by decide) (by decide) (by decide)
  exact h.2.2.2.2

/-- C7 (amended): permanent delete on an active owned asset fails with the
same generic NotFound error used for a missing id (no distinct NotInTrash
error exists) and leaves the store unchanged; on a trashed owned asset the
local record is removed whether or not the external storage release
succeeds. -/
theorem C7_permanent_delete (db : DB) (uid id : Nat) (m : Asset)
    (hu : uniqAssets db) (hm : findAsset db id uid = some m) :
    (m.isInTrash = false →
      ∀ cloudOk, permanentDelete db uid id cloudOk = (.err "Media not found", db)) ∧
    (m.isInTrash = true →
      ∀ cloudOk, permanentDelete db uid id cloudOk =
        (.ok (), { db with assets := db.assets.filter (fun a => a.id ≠ id) })) := by
  obtain ⟨hmem, hid, huid⟩ := findAsset_some hm
  constructor
  · intro hact cloudOk
    have hnone : db.assets.find?
        (fun a => a.id = id ∧ a.userId = uid ∧ a.isInTrash = true) = none := by
      rw [List.find?_eq_none]
      intro x hx hpx
      simp only [decide_eq_true_eq] at hpx
      have hxm : x = m := keyInj hu hx hmem (by rw [hpx.1, hid])
      subst hxm
      rw [hact] at hpx
      exact absurd hpx.2.2 (by simp)
    unfold permanentDelete
    rw [hnone]
  · intro htr cloudOk
    have hsome : db.assets.find?
        (fun a => a.id = id ∧ a.userId = uid ∧ a.isInTrash = true) = some m := by
      apply find?_key_unique (k := fun a => a.id) hu hmem
      · simp only [decide_eq_true_eq]
        exact ⟨hid, huid, htr⟩
      · intro a ha
        simp only [decide_eq_true_eq] at ha
        simp [ha.1, hid]
    unfold permanentDelete
    rw [hsome]
    show (RouteOut.ok (), { db with assets := db.assets.filter (fun a => a.id ≠ m.id) }) =
      (RouteOut.ok (), { db with assets := db.assets.filter (fun a => a.id ≠ id) })
    rw [hid]

/-- Counterexample for C7 as stated: invoking permanent delete on the active
owned asset 1 yields exactly the same NotFound response as invoking it on the
nonexistent id 999 — there is no distinct NotInTrash error. -/
theorem C7_permanent_delete_counterexample :
    permanentDelete exDb 7 1 true = (.err "Media not found", exDb) ∧
    permanentDelete exDb 7 1 true = permanentDelete exDb 7 999 true := by
  constructor <;> decide

theorem C7_permanent_delete_witness :
    permanentDelete exDb 7 3 false =
      (.ok (), { exDb with assets := exDb.assets.filter (fun a => a.id ≠ 3) }) := by
  have h := C7_permanent_delete exDb 7 3
    ({ mkAsset 3 7 "c" "u3" 300 with isInTrash := true }) (by decide) (by decide)
  exact h.2 rfl false

/-- C8 (amended): locked-asset access fails AccessDenied whenever the session
check is false; with a valid session it fails NotFound only when the user has
no locked asset at all; otherwise the given token is compared against the
first locked asset found only, returning that asset's url on match and the
invalid-access error otherwise — assets beyond the first are never
consulted. -/
theorem C8_access_by_token (db : DB) (hashFn : String → Nat → String)
    (now uid : Nat) (hash : String) :
    (lockedHasAccess db now uid = false →
      accessLocked db hashFn now uid hash = .err "Access denied. Please verify password first.") ∧
    (lockedHasAccess db now uid = true →
      db.assets.find? (fun a => a.userId = uid ∧ a.isLocked = true) = none →
      accessLocked db hashFn now uid hash = .err "Media not found") ∧
    (∀ m, lockedHasAccess db now uid = true →
      db.assets.find? (fun a => a.userId = uid ∧ a.isLocked = true) = some m →
      accessLocked db hashFn now uid hash =
        if hash = hashFn m.originalName now then .ok m.url else .err "Invalid access") := by
  refine ⟨?_, ?_, ?_⟩
  · intro h
    unfold accessLocked
    rw [h]
    rfl
  · intro h hn
    unfold accessLocked
    rw [h, hn]
    rfl
  · intro m h hs
    unfold accessLocked
    rw [h, hs]
    by_cases he : hash = hashFn m.originalName now
    · rw [if_pos he]
      show (if hash ≠ hashFn m.originalName now then RouteOut.err "Invalid access"
        else RouteOut.ok m.url) = RouteOut.ok m.url
      rw [if_neg (not_not_intro he)]
    · rw [if_neg he]
      show (if hash ≠ hashFn m.originalName now then RouteOut.err "Invalid access"
        else RouteOut.ok m.url) = RouteOut.err "Invalid access"
      rw [if_pos he]

/-- Concrete store for the C8 counterexample: a valid session and two locked
assets; with the oracle hash function the given token matches the second
locked asset but not the first. -/
def exDb8 : DB :=
  { assets := [{ mkAsset 1 7 "a" "ua" 1 with isLocked := true },
               { mkAsset 2 7 "b" "ub" 1 with isLocked := true }],
    albums := [],
    sessions := [{ userId := 7, hasAccess := true, sessionExpires := some 100 }] }

/-- Oracle hash function used in the C8 counterexample. -/
def exHash : String → Nat → String := fun nm _ => nm

/-- Counterexample for C8 as stated: the session is valid and the user owns a
locked asset (id 2, url ub) whose freshly recomputed token equals the given
token b, yet the route answers Invalid access instead of returning that url —
only the first locked asset is ever checked. -/
theorem C8_access_by_token_counterexample :
    lockedHasAccess exDb8 50 7 = true ∧
    ({ mkAsset 2 7 "b" "ub" 1 with isLocked := true } : Asset) ∈ exDb8.assets ∧
    exHash "b" 50 = "b" ∧
    accessLocked exDb8 exHash 50 7 "b" = .err "Invalid access" ∧
    accessLocked exDb8 exHash 50 7 "b" ≠ .ok "ub" := by
  refine ⟨by decide, by decide, by decide, by decide, by decide⟩

theorem C8_access_by_token_witness :
    accessLocked exDb8 exHash 50 7 "a" = .ok "ua" := by
  have h := (C8_access_by_token exDb8 exHash 50 7 "a").2.2
    ({ mkAsset 1 7 "a" "ua" 1 with isLocked := true }) (by decide) (by decide)
  rw [h]
  decide

/-- C9 (amended): bulk trash and bulk restore skip ids that do not resolve for
the caller without failing the batch and apply the per-item transition to
every resolving id, but the reported count is the number of requested ids —
not the number of items actually transitioned. -/
theorem C9_bulk_trash_restore (db : DB) (now uid : Nat) (ids : List Nat)
    (hne : ids ≠ []) :
    ((bulkTrash db now uid ids).1 = .ok ids.length ∧
     (∀ a ∈ db.assets, (a.id ∉ ids ∨ a.userId ≠ uid) →
        a ∈ (bulkTrash db now uid ids).2.assets) ∧
     (∀ a ∈ db.assets, a.id ∈ ids → a.userId = uid →
        ({ a with isInTrash := true, trashedAt := some now,
                  scheduledDeleteAt := some (now + retentionMs) } : Asset) ∈
          (bulkTrash db now uid ids).2.assets)) ∧
    ((bulkRestore db uid ids).1 = .ok ids.length ∧
     (∀ a ∈ db.assets, (a.id ∉ ids ∨ a.userId ≠ uid ∨ a.isInTrash = false) →
        a ∈ (bulkRestore db uid ids).2.assets) ∧
     (∀ a ∈ db.assets, a.id ∈ ids → a.userId = uid → a.isInTrash = true →
        ({ a with isInTrash := false, trashedAt := none,
                  scheduledDeleteAt := none } : Asset) ∈
          (bulkRestore db uid ids).2.assets)) := by
  cases ids with
  | nil => exact absurd rfl hne
  | cons x xs =>
    refine ⟨⟨rfl, ?_, ?_⟩, ⟨rfl, ?_, ?_⟩⟩
    · intro a ha hcond
      have hc : ¬ (a.id ∈ x :: xs ∧ a.userId = uid) := by
        rcases hcond with h | h
        · exact fun hh => h hh.1
        · exact fun hh => h hh.2
      show a ∈ db.assets.map (fun a =>
        if a.id ∈ x :: xs ∧ a.userId = uid then
          { a with isInTrash := true, trashedAt := some now,
                   scheduledDeleteAt := some (now + retentionMs) }
        else a)
      refine List.mem_map.mpr ⟨a, ha, ?_⟩
      show (if a.id ∈ x :: xs ∧ a.userId = uid then
          ({ a with isInTrash := true, trashedAt := some now,
                    scheduledDeleteAt := some (now + retentionMs) } : Asset)
        else a) = a
      rw [if_neg hc]
    · intro a ha h1 h2
      show ({ a with isInTrash := true, trashedAt := some now,
                     scheduledDeleteAt := some (now + retentionMs) } : Asset) ∈ db.assets.map (fun a =>
        if a.id ∈ x :: xs ∧ a.userId = uid then
          { a with isInTrash := true, trashedAt := some now,
                   scheduledDeleteAt := some (now + retentionMs) }
        else a)
      refine List.mem_map.mpr ⟨a, ha, ?_⟩
      show (if a.id ∈ x :: xs ∧ a.userId = uid then
          ({ a with isInTrash := true, trashedAt := some now,
                    scheduledDeleteAt := some (now + retentionMs) } : Asset)
        else a) = { a with isInTrash := true, trashedAt := some now,
                           scheduledDeleteAt := some (now + retentionMs) }
      rw [if_pos ⟨h1, h2⟩]
    · intro a ha hcond
      have hc : ¬ (a.id ∈ x :: xs ∧ a.userId = uid ∧ a.isInTrash = true) := by
        rcases hcond with h | h | h
        · exact fun hh => h hh.1
        · exact fun hh => h hh.2.1
        · intro hh
          rw [h] at hh
          exact absurd hh.2.2 (by simp)
      show a ∈ db.assets.map (fun a =>
        if a.id ∈ x :: xs ∧ a.userId = uid ∧ a.isInTrash = true then
          { a with isInTrash := false, trashedAt := none, scheduledDeleteAt := none }
        else a)
      refine List.mem_map.mpr ⟨a, ha, ?_⟩
      show (if a.id ∈ x :: xs ∧ a.userId = uid ∧ a.isInTrash = true then
          ({ a with isInTrash := false, trashedAt := none, scheduledDeleteAt := none } : Asset)
        else a) = a
      rw [if_neg hc]
    · intro a ha h1 h2 h3
      show ({ a with isInTrash := false, trashedAt := none,
                     scheduledDeleteAt := none } : Asset) ∈ db.assets.map (fun a =>
        if a.id ∈ x :: xs ∧ a.userId = uid ∧ a.isInTrash = true then
          { a with isInTrash := false, trashedAt := none, scheduledDeleteAt := none }
        else a)
      refine List.mem_map.mpr ⟨a, ha, ?_⟩
      show (if a.id ∈ x :: xs ∧ a.userId = uid ∧ a.isInTrash = true then
          ({ a with isInTrash := false, trashedAt := none, scheduledDeleteAt := none } : Asset)
        else a) = { a with isInTrash := false, trashedAt := none, scheduledDeleteAt := none }
      rw [if_pos ⟨h1, h2, h3⟩]

/-- Counterexample for C9 as stated: requesting bulk trash of ids 2 and 99
(the latter does not exist) transitions exactly one asset but reports a count
of 2. -/
theorem C9_bulk_trash_restore_counterexample :
    (bulkTrash exDb 0 7 [2, 99]).1 = .ok 2 ∧
    ((bulkTrash exDb 0 7 [2, 99]).2.assets.filter (fun a => a.trashedAt = some 0)).length = 1 ∧
    (2 : Nat) ≠ 1 := by
  refine ⟨by decide, by decide, by decide⟩

theorem C9_bulk_trash_restore_witness :
    ({ mkAsset 2 7 "b" "u2" 200 with isInTrash := true, trashedAt := some 0,
                                     scheduledDeleteAt := some retentionMs } : Asset) ∈
      (bulkTrash exDb 0 7 [2]).2.assets := by
  have h := (C9_bulk_trash_restore exDb 0 7 [2] (by decide)).1.2.2
    (mkAsset 2 7 "b" "u2" 200) (by decide) (by decide) (by decide)
  simpa using h

/-- Two successive keyed overwrites at the same key collapse to the second. -/
theorem map_update_twice {α : Type} (key : α → Nat) (i : Nat) (b c : α)
    (hb : key b = i) (l : List α) :
    (l.map (fun g => if key g = i then b else g)).map (fun g => if key g = i then c else g)
      = l.map (fun g => if key g = i then c else g) := by
  rw [List.map_map]
  apply List.map_congr_left
  intro g _
  simp only [Function.comp_apply]
  by_cases h : key g = i
  · simp [h, hb]
  · simp [h]

/-- Recomputing the cover of an empty album saves the empty cover. -/
theorem recomputeCover_nil (db : DB) (al : Album) (h : al.media = []) :
    recomputeCover db al = saveAlbum db { al with coverUrl := "" } := by
  unfold recomputeCover
  rw [h]

/-- Recomputing the cover of a nonempty album looks up its first member. -/
theorem recomputeCover_cons (db : DB) (al : Album) (first : Nat) (rest : List Nat)
    (h : al.media = first :: rest) :
    recomputeCover db al =
      (match findAssetById db first with
       | some fm => saveAlbum db { al with coverUrl := fm.url }
       | none => db) := by
  unfold recomputeCover
  rw [h]

/-- Recomputing a cover either saves the album with some cover string or
leaves the store untouched. -/
theorem recomputeCover_exists (db : DB) (al : Album) :
    (∃ cov, recomputeCover db al = saveAlbum db { al with coverUrl := cov }) ∨
      recomputeCover db al = db := by
  unfold recomputeCover
  split
  · exact Or.inl ⟨"", rfl⟩
  · split
    · next fm _ => exact Or.inl ⟨fm.url, rfl⟩
    · exact Or.inr rfl

/-- Detaching with no current album is the identity on the store. -/
theorem moveDetach_none (db : DB) (uid : Nat) (media : Asset)
    (h : media.albumId = none) : moveDetach db uid media = db := by
  unfold moveDetach
  rw [h]

/-- Characterisation of the detach block when the current album resolves: the
current album loses the asset's id from its media list (its cover is replaced
by some recomputed value), and assets and sessions are untouched. -/
theorem moveDetach_albums (db : DB) (uid : Nat) (media : Asset) (curId : Nat)
    (cur : Album) (hal : media.albumId = some curId)
    (hcur : findAlbum db curId uid = some cur) :
    ∃ cov : String,
      (moveDetach db uid media).assets = db.assets ∧
      (moveDetach db uid media).sessions = db.sessions ∧
      (moveDetach db uid media).albums = db.albums.map (fun g =>
        if g.id = cur.id then
          { cur with media := cur.media.filter (fun i => i ≠ media.id), coverUrl := cov }
        else g) := by
  simp only [moveDetach, hal, hcur]
  by_cases hcov : cur.coverUrl = media.url
  · rw [if_pos hcov]
    rcases recomputeCover_exists
        (saveAlbum db { cur with media := cur.media.filter (fun i => i ≠ media.id) })
        { cur with media := cur.media.filter (fun i => i ≠ media.id) } with ⟨cov, hc⟩ | hc
    · rw [hc]
      refine ⟨cov, rfl, rfl, ?_⟩
      exact map_update_twice (fun g => g.id) cur.id
        { cur with media := cur.media.filter (fun i => i ≠ media.id) }
        { cur with media := cur.media.filter (fun i => i ≠ media.id), coverUrl := cov }
        rfl db.albums
    · rw [hc]
      exact ⟨cur.coverUrl, rfl, rfl, rfl⟩
  · rw [if_neg hcov]
    exact ⟨cur.coverUrl, rfl, rfl, rfl⟩

/-- Characterisation of the attach block when the target resolves and the
asset is not yet a member: the id is appended to the target's media list, the
cover becomes some value, and the asset's record is repointed at the
target. -/
theorem moveAttach_albums (db : DB) (uid tid : Nat) (media : Asset) (tgt : Album)
    (htgt : findAlbum db tid uid = some tgt) (hnm : media.id ∉ tgt.media) :
    ∃ cov : String,
      (moveAttach db uid media (some tid)).1 = .ok () ∧
      (moveAttach db uid media (some tid)).2.albums = db.albums.map (fun g =>
        if g.id = tgt.id then
          { tgt with media := tgt.media ++ [media.id], coverUrl := cov }
        else g) ∧
      (moveAttach db uid media (some tid)).2.assets = db.assets.map (fun a =>
        if a.id = media.id then { media with albumId := some tid } else a) ∧
      (moveAttach db uid media (some tid)).2.sessions = db.sessions := by
  simp only [moveAttach, htgt]
  rw [if_neg hnm, if_neg hnm]
  split
  · refine ⟨media.url, by trivial, ?_, by trivial, by trivial⟩
    exact map_update_twice (fun g => g.id) tgt.id
      { tgt with media := tgt.media ++ [media.id] }
      { tgt with media := tgt.media ++ [media.id], coverUrl := media.url }
      rfl db.albums
  · exact ⟨tgt.coverUrl, by trivial, by trivial, by trivial, by trivial⟩

/-- Attaching to the main library just clears the asset's albumId. -/
theorem moveAttach_mainlib (db : DB) (uid : Nat) (media : Asset) :
    moveAttach db uid media none = (.ok (), saveAsset db { media with albumId := none }) := rfl

/-- Keyed pointwise updates preserve key distinctness. -/
theorem uniq_map_update {α : Type} {key : α → Nat} {i : Nat} {g : α → α}
    {l : List α} (h : (l.map key).Nodup) (hg : ∀ a ∈ l, key a = i → key (g a) = key a) :
    ((l.map (fun a => if key a = i then g a else a)).map key).Nodup := by
  rw [map_update_keys key i g l hg]
  exact h

/-- Characterisation of add-media when album and asset resolve and the asset
is not yet a member: the id is appended, the asset's albumId is pointed at
the album, the cover becomes some value — and nothing is removed from any
other album. -/
theorem addMedia_spec (db : DB) (uid albumId mediaId : Nat) (album : Album)
    (media : Asset) (hal : findAlbum db albumId uid = some album)
    (hmed : findAsset db mediaId uid = some media) (hnm : mediaId ∉ album.media) :
    ∃ cov : String,
      (addMedia db uid albumId mediaId).1 = .ok () ∧
      (addMedia db uid albumId mediaId).2.albums = db.albums.map (fun g =>
        if g.id = album.id then
          { album with media := album.media ++ [mediaId], coverUrl := cov }
        else g) ∧
      (addMedia db uid albumId mediaId).2.assets = db.assets.map (fun a =>
        if a.id = mediaId then { a with albumId := some album.id } else a) ∧
      (addMedia db uid albumId mediaId).2.sessions = db.sessions := by
  simp only [addMedia, hal, hmed]
  rw [if_neg hnm]
  split
  · refine ⟨media.url, by trivial, ?_, by trivial, by trivial⟩
    exact map_update_twice (fun g => g.id) album.id
      { album with media := album.media ++ [mediaId] }
      { album with media := album.media ++ [mediaId], coverUrl := media.url }
      rfl db.albums
  · exact ⟨album.coverUrl, by trivial, by trivial, by trivial, by trivial⟩

/-- C1 (amended): add-media does not detach — after addMedia on an asset that
already belongs to a different folder the asset's id is in both folders'
media lists while its albumId points at the new folder, so I1 is violated;
move-media, by contrast, detaches first, leaving the asset a member of the
target folder only. -/
theorem C1_add_media_vs_move_media (db : DB) (uid mid f1id f2id : Nat)
    (m : Asset) (F1 F2 : Album)
    (hua : uniqAssets db) (hub : uniqAlbums db)
    (hm : findAsset db mid uid = some m) (halb : m.albumId = some f1id)
    (hF1 : findAlbum db f1id uid = some F1) (hF2 : findAlbum db f2id uid = some F2)
    (hne : f1id ≠ f2id) (hmem1 : mid ∈ F1.media) (hmem2 : mid ∉ F2.media)
    (honly : ∀ g ∈ db.albums, mid ∈ g.media → g.id = f1id) :
    (F1 ∈ (addMedia db uid f2id mid).2.albums ∧ mid ∈ F1.media ∧ F1.id ≠ f2id ∧
     (∃ F2b ∈ (addMedia db uid f2id mid).2.albums,
        F2b.id = f2id ∧ F2b.media = F2.media ++ [mid]) ∧
     findAssetById (addMedia db uid f2id mid).2 mid = some { m with albumId := some f2id }) ∧
    ((moveMedia db uid mid (some f2id)).1 = .ok () ∧
     findAssetById (moveMedia db uid mid (some f2id)).2 mid =
       some { m with albumId := some f2id } ∧
     (∃ F2c ∈ (moveMedia db uid mid (some f2id)).2.albums, F2c.id = f2id ∧ mid ∈ F2c.media) ∧
     (∀ g ∈ (moveMedia db uid mid (some f2id)).2.albums, mid ∈ g.media → g.id = f2id)) := by
  obtain ⟨hmmem, hmid, hmuid⟩ := findAsset_some hm
  obtain ⟨hF1mem, hF1id, hF1uid⟩ := findAlbum_some hF1
  obtain ⟨hF2mem, hF2id, hF2uid⟩ := findAlbum_some hF2
  have hF1neF2 : ¬ F1.id = F2.id := by
    rw [hF1id, hF2id]; exact hne
  constructor
  · -- add-media part
    rcases addMedia_spec db uid f2id mid F2 m hF2 hm hmem2 with ⟨covA, hok, hAl, hAs, hS⟩
    have hkeysA : ((addMedia db uid f2id mid).2.assets.map (fun a => a.id))
        = db.assets.map (fun a => a.id) := by
      rw [hAs]
      apply map_update_keys
      intro a _ ha
      simp [ha]
    refine ⟨?_, hmem1, by rw [hF1id]; exact hne, ?_, ?_⟩
    · rw [hAl]
      exact mem_map_update_of_ne hF1mem hF1neF2
    · refine ⟨{ F2 with media := F2.media ++ [mid], coverUrl := covA }, ?_, hF2id, rfl⟩
      rw [hAl]
      exact mem_map_update_self hF2mem rfl
    · show (addMedia db uid f2id mid).2.assets.find? (fun a => a.id = mid)
        = some { m with albumId := some f2id }
      rw [hAs, ← hF2id]
      apply find?_key_unique (k := fun a => a.id)
      · exact uniq_map_update hua (fun a _ ha => by simp [ha])
      · exact mem_map_update_self hmmem hmid
      · simp [hmid]
      · intro a ha
        simp only [decide_eq_true_eq] at ha
        simp [ha, hmid]
  · -- move-media part
    rcases moveDetach_albums db uid m f1id F1 halb hF1 with ⟨cov1, hdAs, hdS, hdAl⟩
    have hF2in1 : F2 ∈ (moveDetach db uid m).albums := by
      rw [hdAl]
      exact mem_map_update_of_ne hF2mem (fun h => hF1neF2 h.symm)
    have hu1 : uniqAlbums (moveDetach db uid m) := by
      unfold uniqAlbums
      rw [hdAl]
      exact uniq_map_update hub (fun a _ ha => by simp [ha])
    have hfjF2 : findAlbum (moveDetach db uid m) f2id uid = some F2 := by
      apply find?_key_unique (k := fun a => a.id) hu1 hF2in1
      · simp [hF2id, hF2uid]
      · intro a ha
        simp only [decide_eq_true_eq] at ha
        simp [ha.1, hF2id]
    have hmnm : m.id ∉ F2.media := by
      rw [hmid]; exact hmem2
    rcases moveAttach_albums (moveDetach db uid m) uid f2id m F2 hfjF2 hmnm with
      ⟨cov2, hok2, hAl2, hAs2, hS2⟩
    have hred : moveMedia db uid mid (some f2id)
        = moveAttach (moveDetach db uid m) uid m (some f2id) := by
      unfold moveMedia
      rw [hm]
    refine ⟨?_, ?_, ?_, ?_⟩
    · rw [hred]; exact hok2
    · rw [hred]
      show (moveAttach (moveDetach db uid m) uid m (some f2id)).2.assets.find?
        (fun a => a.id = mid) = _
      rw [hAs2, hdAs]
      apply find?_key_unique (k := fun a => a.id)
      · exact uniq_map_update hua (fun a _ ha => by simp [ha])
      · exact mem_map_update_self hmmem rfl
      · simp [hmid]
      · intro a ha
        simp only [decide_eq_true_eq] at ha
        simp [ha, hmid]
    · rw [hred]
      refine ⟨{ F2 with media := F2.media ++ [m.id], coverUrl := cov2 }, ?_, hF2id, ?_⟩
      · rw [hAl2]
        exact mem_map_update_self hF2in1 rfl
      · rw [← hmid]
        exact List.mem_append_right _ (List.mem_singleton.mpr rfl)
    · rw [hred]
      intro g hg hmidg
      rw [hAl2, hdAl] at hg
      obtain ⟨g1, hg1, rfl⟩ := List.mem_map.mp hg
      obtain ⟨g0, hg0, rfl⟩ := List.mem_map.mp hg1
      by_cases h0 : g0.id = F1.id
      · rw [if_pos h0] at hmidg ⊢
        have hneq : ({ F1 with media := F1.media.filter (fun i => i ≠ m.id), coverUrl := cov1 } : Album).id = F2.id → False := fun h => hF1neF2 h
        rw [if_neg hneq] at hmidg ⊢
        have hx : mid ≠ m.id := by
          have := (List.mem_filter.mp hmidg).2
          simpa using this
        exact absurd hmid.symm hx
      · rw [if_neg h0] at hmidg ⊢
        by_cases h2 : g0.id = F2.id
        · rw [if_pos h2] at hmidg ⊢
          show ({ F2 with media := F2.media ++ [m.id], coverUrl := cov2 } : Album).id = f2id
          exact hF2id
        · rw [if_neg h2] at hmidg ⊢
          have := honly g0 hg0 hmidg
          exact absurd (this.trans hF1id.symm) h0

/-- Counterexample for C1 as stated: in `exDb` asset 1 belongs to folder 10
and is in its media list; after add-media to folder 20 the asset's albumId is
folder 20 while its id sits in both folders' media lists — it is a member of
two folders at once, so I1 does not hold after addMedia. -/
theorem C1_add_media_vs_move_media_counterexample :
    ((addMedia exDb 7 20 1).2.albums.map (fun g => (g.id, g.media)))
      = [(10, [1]), (20, [1]), (30, [])] ∧
    findAssetById (addMedia exDb 7 20 1).2 1
      = some { mkAsset 1 7 "a" "u1" 100 with albumId := some 20 } := by
  constructor <;> decide

theorem C1_add_media_vs_move_media_witness :
    findAssetById (moveMedia exDb 7 1 (some 20)).2 1
      = some { mkAsset 1 7 "a" "u1" 100 with albumId := some 20 } := by
  have h := C1_add_media_vs_move_media exDb 7 1 10 20
    ({ mkAsset 1 7 "a" "u1" 100 with albumId := some 10 })
    (mkAlbum 10 7 "F1" "u1" [1] none) (mkAlbum 20 7 "F2" "" [] (some 10))
    (by decide) (by decide) (by decide) (by decide) (by decide) (by decide)
    (by decide) (by decide) (by decide) (by decide)
  exact h.2.2.1

/-- The id `z` occurs in the ancestor chain of the album with id `x`
(including `x` itself), following `parentAlbumId` through `findAlbumById`
exactly as the move route's walk steps do.  `AncOf db p f` says the album `p`
lies in the descendant set of `f`. -/
inductive AncOf (db : DB) : Nat → Nat → Prop where
  | here (x : Nat) : AncOf db x x
  | up (x y z : Nat) (a : Album) : findAlbumById db x = some a →
      a.parentAlbumId = some y → AncOf db y z → AncOf db x z

/-- Boolean certificate that the rank function strictly decreases along
parent steps (ancestors rank lower), which bounds the ancestor walk. -/
def ancOkB (db : DB) (r : Nat → Nat) : Bool :=
  db.albums.all (fun a =>
    match parStep db a with
    | none => true
    | some pa => decide (r pa.id < r a.id))

/-- Unpacking the boolean rank certificate. -/
theorem ancOkB_spec {db : DB} {r : Nat → Nat} (h : ancOkB db r = true) :
    ∀ a ∈ db.albums, ∀ pa, parStep db a = some pa → r pa.id < r a.id := by
  intro a ha pa hpa
  have := List.all_eq_true.mp h a ha
  rw [hpa] at this
  simpa using this

/-- A resolving parent step lands on a member of the store. -/
theorem parStep_mem {db : DB} {a q : Album} (h : parStep db a = some q) :
    q ∈ db.albums := by
  unfold parStep at h
  cases hp : a.parentAlbumId with
  | none => rw [hp] at h; cases h
  | some pid =>
    rw [hp] at h
    exact (findAlbumById_some h).1

/-- The walk is monotone in fuel: once it terminates, more fuel does not
change its verdict. -/
theorem walk_mono (db : DB) (t : Nat) :
    ∀ fuel p b, walkFindsId db fuel t p = some b →
      ∀ fuel2, fuel ≤ fuel2 → walkFindsId db fuel2 t p = some b := by
  intro fuel
  induction fuel with
  | zero =>
    intro p b h
    simp [walkFindsId] at h
  | succ fuel ih =>
    intro p b h fuel2 hle
    obtain ⟨fuel3, rfl⟩ : ∃ k, fuel2 = k + 1 := ⟨fuel2 - 1, by omega⟩
    simp only [walkFindsId] at h ⊢
    by_cases hid : p.id = t
    · rw [if_pos hid] at h ⊢
      exact h
    · rw [if_neg hid] at h ⊢
      cases hpar : parStep db p with
      | none =>
        rw [hpar] at h
        exact h
      | some q =>
        rw [hpar] at h
        exact ih q b h fuel3 (by omega)

/-- With the rank certificate, the walk terminates within rank-many steps. -/
theorem walk_terminates (db : DB) (t : Nat) (r : Nat → Nat)
    (hr : ancOkB db r = true) :
    ∀ fuel, ∀ p ∈ db.albums, r p.id < fuel → (walkFindsId db fuel t p).isSome = true := by
  intro fuel
  induction fuel with
  | zero => intro p _ h; omega
  | succ fuel ih =>
    intro p hp h
    simp only [walkFindsId]
    by_cases hid : p.id = t
    · rw [if_pos hid]
      rfl
    · rw [if_neg hid]
      cases hpar : parStep db p with
      | none => rfl
      | some q =>
        have hq : q ∈ db.albums := parStep_mem hpar
        have hlt : r q.id < r p.id := ancOkB_spec hr p hp q hpar
        exact ih q hq (by omega)

/-- Soundness: when the walk reports the target, the target really is in the
ancestor chain. -/
theorem walk_sound (db : DB) (hu : uniqAlbums db) (t : Nat) :
    ∀ fuel p, p ∈ db.albums → walkFindsId db fuel t p = some true →
      AncOf db p.id t := by
  intro fuel
  induction fuel with
  | zero =>
    intro p _ h
    simp [walkFindsId] at h
  | succ fuel ih =>
    intro p hp h
    simp only [walkFindsId] at h
    by_cases hid : p.id = t
    · rw [hid]
      exact AncOf.here t
    · rw [if_neg hid] at h
      cases hpar : parStep db p with
      | none =>
        rw [hpar] at h
        cases h
      | some q =>
        rw [hpar] at h
        have hq : q ∈ db.albums := parStep_mem hpar
        have hqanc := ih q hq h
        have hself : findAlbumById db p.id = some p := findAlbumById_of_mem hu hp
        unfold parStep at hpar
        cases hpp : p.parentAlbumId with
        | none => rw [hpp] at hpar; cases hpar
        | some y =>
          rw [hpp] at hpar
          have hqy : q.id = y := (findAlbumById_some hpar).2
          exact AncOf.up p.id y t p hself hpp (hqy ▸ hqanc)

/-- A node whose chain reaches a resolvable target has a resolvable head. -/
theorem ancChain_resolves (db : DB) (hu : uniqAlbums db) {y z : Nat}
    (h : AncOf db y z) (hz : ∃ f ∈ db.albums, f.id = z) :
    ∃ q, findAlbumById db y = some q := by
  cases h with
  | here _ =>
    obtain ⟨f, hf, rfl⟩ := hz
    exact ⟨f, findAlbumById_of_mem hu hf⟩
  | up _ y2 _ a hfind _ _ => exact ⟨a, hfind⟩

/-- Completeness: when the target is in the ancestor chain and resolves, the
walk finds it with enough fuel. -/
theorem walk_complete (db : DB) (hu : uniqAlbums db) :
    ∀ {x t : Nat}, AncOf db x t → (∃ f ∈ db.albums, f.id = t) →
      ∀ p, findAlbumById db x = some p → ∃ n, walkFindsId db n t p = some true := by
  intro x t h
  induction h with
  | here w =>
    intro _ p hp
    refine ⟨1, ?_⟩
    simp only [walkFindsId]
    rw [if_pos (findAlbumById_some hp).2]
  | up x y z a hfind hpar hanc ih =>
    intro hz p hp
    have hpa : p = a := by
      rw [hfind] at hp
      exact (Option.some.inj hp).symm
    subst hpa
    by_cases hid : p.id = z
    · refine ⟨1, ?_⟩
      simp only [walkFindsId]
      rw [if_pos hid]
    · obtain ⟨q, hq⟩ := ancChain_resolves db hu hanc hz
      obtain ⟨n, hn⟩ := ih hz q hq
      refine ⟨n + 1, ?_⟩
      simp only [walkFindsId]
      rw [if_neg hid]
      have hstep : parStep db p = some q := by
        unfold parStep
        rw [hpar]
        show findAlbumById db y = some q
        exact hq
      rw [hstep]
      exact hn

/-- C2: with a rank certificate for the folder forest and enough fuel, moving
folder F onto any target P in F's own descendant set (including P = F) fails
with the CyclicMove error (400, Cannot move folder into itself or its
descendant) and the store is returned unchanged — no mutation is applied;
moving onto a resolvable non-descendant target succeeds and reparents F. -/
theorem C2_move_album_cycle (db : DB) (fuel now uid fid pid : Nat) (f p : Album)
    (r : Nat → Nat) (hu : uniqAlbums db) (hr : ancOkB db r = true)
    (hf : findAlbum db fid uid = some f) (hp : findAlbum db pid uid = some p)
    (hfuel : r p.id < fuel) :
    (AncOf db pid fid →
      moveAlbum db fuel now uid fid (.pid pid)
        = some (.err "Cannot move folder into itself or its descendant", db)) ∧
    (¬ AncOf db pid fid →
      moveAlbum db fuel now uid fid (.pid pid)
        = some (.ok { f with parentAlbumId := some pid, updatedAt := now },
                saveAlbum db { f with parentAlbumId := some pid, updatedAt := now })) := by
  obtain ⟨hfmem, hfid, hfuid⟩ := findAlbum_some hf
  obtain ⟨hpmem, hpid, hpuid⟩ := findAlbum_some hp
  have hsome : (walkFindsId db fuel fid p).isSome = true :=
    walk_terminates db fid r hr fuel p hpmem hfuel
  constructor
  · intro hanc
    have hfz : ∃ g ∈ db.albums, g.id = fid := ⟨f, hfmem, hfid⟩
    have hidp : findAlbumById db pid = some p := by
      have := findAlbumById_of_mem hu hpmem
      rw [hpid] at this
      exact this
    obtain ⟨n, hn⟩ := walk_complete db hu hanc hfz p hidp
    have hval : walkFindsId db fuel fid p = some true := by
      cases hw : walkFindsId db fuel fid p with
      | none =>
        rw [hw] at hsome
        cases hsome
      | some b =>
        have h1 := walk_mono db fid fuel p b hw (max fuel n) (Nat.le_max_left fuel n)
        have h2 := walk_mono db fid n p true hn (max fuel n) (Nat.le_max_right fuel n)
        rw [h1] at h2
        have hb : b = true := Option.some.inj h2
        rw [hb]
    simp only [moveAlbum, hp, hval]
  · intro hnanc
    have hval : walkFindsId db fuel fid p = some false := by
      cases hw : walkFindsId db fuel fid p with
      | none =>
        rw [hw] at hsome
        cases hsome
      | some b =>
        cases b with
        | true =>
          have := walk_sound db hu fid fuel p hpmem hw
          rw [hpid] at this
          exact absurd this hnanc
        | false => rfl
    simp only [moveAlbum, hp, hval]
    unfold reparent
    rw [hf]

theorem C2_move_album_cycle_witness :
    moveAlbum exDb 31 5 7 10 (.pid 30)
      = some (.err "Cannot move folder into itself or its descendant", exDb) := by
  have hanc : AncOf exDb 30 10 :=
    AncOf.up 30 20 10 (mkAlbum 30 7 "F3" "" [] (some 20)) (by decide) (by decide)
      (AncOf.up 20 10 10 (mkAlbum 20 7 "F2" "" [] (some 10)) (by decide) (by decide)
        (AncOf.here 10))
  have h := C2_move_album_cycle exDb 31 5 7 10 30 (mkAlbum 10 7 "F1" "u1" [1] none)
    (mkAlbum 30 7 "F3" "" [] (some 20)) (fun i => i) (by decide) (by decide)
    (by decide) (by decide) (by decide)
  exact h.1 hanc

/-- Lookup of the display url of the asset carrying an id. -/
def urlLookup (assets : List Asset) (i : Nat) : Option String :=
  (assets.find? (fun a => a.id = i)).map (fun a => a.url)

/-- The I4 condition on one album against an asset list: the cover equals the
url of the asset at the first media id, or the empty string when the album is
empty. -/
def coverOkList (assets : List Asset) (cover : String) : List Nat → Bool
  | [] => cover = ""
  | first :: _ => urlLookup assets first = some cover

/-- The I4 condition of an album inside a store. -/
def coverOkB (db : DB) (al : Album) : Bool :=
  coverOkList db.assets al.coverUrl al.media

/-- Every member id of every album resolves to an asset record. -/
def Resolvable (db : DB) : Prop :=
  ∀ al ∈ db.albums, ∀ i ∈ al.media, ∃ a ∈ db.assets, a.id = i

/-- An id carried by some member is found. -/
theorem find_isSome {l : List Asset} {i : Nat} (h : ∃ a ∈ l, a.id = i) :
    (l.find? (fun a => a.id = i)).isSome = true := by
  cases hfind : l.find? (fun a => a.id = i) with
  | some _ => rfl
  | none =>
    obtain ⟨a, ha, hai⟩ := h
    have := List.find?_eq_none.mp hfind a ha
    simp [hai] at this

/-- A pointwise id- and url-preserving rewrite of the asset list does not
change url lookups. -/
theorem urlLookup_map {l : List Asset} {f : Asset → Asset}
    (hid : ∀ a ∈ l, (f a).id = a.id) (hurl : ∀ a ∈ l, (f a).url = a.url) (i : Nat) :
    urlLookup (l.map f) i = urlLookup l i := by
  induction l with
  | nil => rfl
  | cons a t ih =>
    unfold urlLookup
    rw [List.map_cons]
    by_cases hpa : a.id = i
    · rw [List.find?_cons_of_pos _ (by simp [hid a (List.mem_cons_self a t), hpa]),
          List.find?_cons_of_pos _ (by simp [hpa])]
      simp [hurl a (List.mem_cons_self a t)]
    · rw [List.find?_cons_of_neg _ (by simp [hid a (List.mem_cons_self a t), hpa]),
          List.find?_cons_of_neg _ (by simp [hpa])]
      exact ih (fun b hb => hid b (List.mem_cons_of_mem a hb))
        (fun b hb => hurl b (List.mem_cons_of_mem a hb))

/-- Appending a record does not change lookups of ids that already resolve. -/
theorem urlLookup_append_old {l : List Asset} {doc : Asset} {i : Nat}
    (h : ∃ a ∈ l, a.id = i) : urlLookup (l ++ [doc]) i = urlLookup l i := by
  induction l with
  | nil =>
    obtain ⟨a, ha, _⟩ := h
    cases ha
  | cons a t ih =>
    unfold urlLookup
    rw [List.cons_append]
    by_cases hpa : a.id = i
    · rw [List.find?_cons_of_pos _ (by simp [hpa]), List.find?_cons_of_pos _ (by simp [hpa])]
    · rw [List.find?_cons_of_neg _ (by simp [hpa]), List.find?_cons_of_neg _ (by simp [hpa])]
      rcases h with ⟨b, hb, hbi⟩
      rcases List.mem_cons.mp hb with rfl | hb2
      · exact absurd hbi hpa
      · exact ih ⟨b, hb2, hbi⟩

/-- Appending a record with a fresh id makes its url the lookup result. -/
theorem urlLookup_append_new {l : List Asset} {doc : Asset}
    (hfresh : ∀ a ∈ l, ¬ a.id = doc.id) :
    urlLookup (l ++ [doc]) doc.id = some doc.url := by
  induction l with
  | nil =>
    unfold urlLookup
    rw [List.nil_append, List.find?_cons_of_pos _ (by simp)]
    rfl
  | cons a t ih =>
    unfold urlLookup
    rw [List.cons_append,
        List.find?_cons_of_neg _ (by simp [hfresh a (List.mem_cons_self a t)])]
    exact ih (fun b hb => hfresh b (List.mem_cons_of_mem a hb))

/-- I4 for one album depends only on url lookups. -/
theorem coverOkB_ext {db db' : DB}
    (h : ∀ i, urlLookup db'.assets i = urlLookup db.assets i) (al : Album) :
    coverOkB db' al = coverOkB db al := by
  unfold coverOkB
  cases hml : al.media with
  | nil => rfl
  | cons first rest =>
    simp only [coverOkList]
    rw [h first]

/-- Global I4 is preserved by a state change that replaces one album record
with one that satisfies I4 and preserves url lookups. -/
theorem coverOkAll_update (db db' : DB) (X : Album)
    (hurl : ∀ i, urlLookup db'.assets i = urlLookup db.assets i)
    (halb : db'.albums = db.albums.map (fun g => if g.id = X.id then X else g))
    (hX : coverOkList db'.assets X.coverUrl X.media = true)
    (hcov : ∀ al ∈ db.albums, coverOkB db al = true) :
    ∀ al ∈ db'.albums, coverOkB db' al = true := by
  intro al hal
  rw [halb] at hal
  obtain ⟨g, hg, rfl⟩ := List.mem_map.mp hal
  by_cases hid2 : g.id = X.id
  · rw [if_pos hid2]
    exact hX
  · rw [if_neg hid2, coverOkB_ext hurl g]
    exact hcov g hg

/-- Global I4 is preserved by a state change that keeps the albums and
preserves url lookups. -/
theorem coverOkAll_ext (db db' : DB)
    (hurl : ∀ i, urlLookup db'.assets i = urlLookup db.assets i)
    (halb : db'.albums = db.albums)
    (hcov : ∀ al ∈ db.albums, coverOkB db al = true) :
    ∀ al ∈ db'.albums, coverOkB db' al = true := by
  intro al hal
  rw [halb] at hal
  rw [coverOkB_ext hurl al]
  exact hcov al hal

/-- Recomputing a cover never touches the asset collection. -/
theorem recomputeCover_assets (db : DB) (al : Album) :
    (recomputeCover db al).assets = db.assets := by
  unfold recomputeCover
  split
  · rfl
  · split <;> rfl

/-- The detach block never touches the asset collection. -/
theorem moveDetach_assets (db : DB) (uid : Nat) (media : Asset) :
    (moveDetach db uid media).assets = db.assets := by
  unfold moveDetach
  split
  · rfl
  · split
    · rfl
    · split
      · exact recomputeCover_assets _ _
      · rfl

/-- Pointwise changes of `albumId` preserve url lookups. -/
theorem urlLookup_setAlbum (l : List Asset) (mid : Nat) (aid : Option Nat) :
    ∀ i, urlLookup (l.map (fun a => if a.id = mid then { a with albumId := aid } else a)) i
      = urlLookup l i :=
  fun i => urlLookup_map
    (fun a _ => by by_cases h : a.id = mid <;> simp [h])
    (fun a _ => by by_cases h : a.id = mid <;> simp [h]) i

/-- Remove-media preserves I4 for every album. -/
theorem removeMedia_coverOk (db : DB) (uid albumId mediaId : Nat)
    (hres : Resolvable db)
    (hcov : ∀ al ∈ db.albums, coverOkB db al = true) :
    ∀ al ∈ (removeMedia db uid albumId mediaId).2.albums,
      coverOkB (removeMedia db uid albumId mediaId).2 al = true := by
  cases hal : findAlbum db albumId uid with
  | none =>
    simp only [removeMedia, hal]
    exact hcov
  | some album =>
    have halmem : album ∈ db.albums := (findAlbum_some hal).1
    simp only [removeMedia, hal]
    cases hml : List.filter (fun i => decide (i ≠ mediaId)) album.media with
    | nil =>
      rw [recomputeCover_nil _ _ rfl]
      refine coverOkAll_update db _
        { album with media := [], coverUrl := "" } ?_ ?_ ?_ hcov
      · exact urlLookup_setAlbum db.assets mediaId none
      · exact map_update_twice (fun g => g.id) album.id
          { album with media := [] } { album with media := [], coverUrl := "" } rfl db.albums
      · simp [coverOkList]
    | cons first rest =>
      rw [recomputeCover_cons _ _ first rest rfl]
      have hfmem : first ∈ album.media := by
        have h1 : first ∈ List.filter (fun i => decide (i ≠ mediaId)) album.media := by
          rw [hml]
          exact List.mem_cons_self first rest
      
        exact List.mem_of_mem_filter h1
      obtain ⟨a, ha, hai⟩ := hres album halmem first hfmem
      cases hff : findAssetById
          (setAssetAlbum (saveAlbum db { album with media := first :: rest }) mediaId none)
          first with
      | none =>
        have hex : ∃ b ∈ (setAssetAlbum (saveAlbum db { album with media := first :: rest })
            mediaId none).assets, b.id = first := by
          refine ⟨if a.id = mediaId then { a with albumId := none } else a, ?_, ?_⟩
          · exact List.mem_map_of_mem _ ha
          · by_cases h : a.id = mediaId
            · rw [if_pos h]
              show a.id = first
              exact hai
            · rw [if_neg h]
              exact hai
        have := find_isSome hex
        unfold findAssetById at hff
        rw [hff] at this
        cases this
      | some fm =>
        refine coverOkAll_update db _
          { album with media := first :: rest, coverUrl := fm.url } ?_ ?_ ?_ hcov
        · exact urlLookup_setAlbum db.assets mediaId none
        · exact map_update_twice (fun g => g.id) album.id
            { album with media := first :: rest }
            { album with media := first :: rest, coverUrl := fm.url } rfl db.albums
        · show coverOkList _ fm.url (first :: rest) = true
          simp only [coverOkList]
          unfold findAssetById at hff
          unfold urlLookup
          show decide (Option.map (fun a => a.url)
            ((setAssetAlbum (saveAlbum db { album with media := first :: rest })
              mediaId none).assets.find? (fun a => a.id = first)) = some fm.url) = true
          rw [hff]
          simp

/-- Add-media preserves I4 for every album. -/
theorem addMedia_coverOk (db : DB) (uid albumId mediaId : Nat)
    (hu : uniqAssets db)
    (hcov : ∀ al ∈ db.albums, coverOkB db al = true) :
    ∀ al ∈ (addMedia db uid albumId mediaId).2.albums,
      coverOkB (addMedia db uid albumId mediaId).2 al = true := by
  cases hal : findAlbum db albumId uid with
  | none =>
    simp only [addMedia, hal]
    exact hcov
  | some album =>
    cases hmed : findAsset db mediaId uid with
    | none =>
      simp only [addMedia, hal, hmed]
      exact hcov
    | some media =>
      obtain ⟨hmem, hmid, _⟩ := findAsset_some hmed
      have halmem : album ∈ db.albums := (findAlbum_some hal).1
      simp only [addMedia, hal, hmed]
      by_cases hin : mediaId ∈ album.media
      · rw [if_pos hin]
        exact hcov
      · rw [if_neg hin]
        have hmurl : urlLookup db.assets mediaId = some media.url := by
          unfold urlLookup
          rw [find?_key_unique (k := fun a => a.id) hu hmem (by simp [hmid])
            (fun a ha => by
              simp only [decide_eq_true_eq] at ha
              simp [ha, hmid])]
          rfl
        split
        · next hlen =>
          have hlen2 : (album.media ++ [mediaId]).length = 1 := hlen
          have hnil : album.media = [] := by
            rw [List.length_append] at hlen2
            simp at hlen2
            exact hlen2
          refine coverOkAll_update db _
            { album with media := album.media ++ [mediaId], coverUrl := media.url }
            ?_ ?_ ?_ hcov
          · exact urlLookup_setAlbum db.assets mediaId (some album.id)
          · exact map_update_twice (fun g => g.id) album.id
              { album with media := album.media ++ [mediaId] }
              { album with media := album.media ++ [mediaId], coverUrl := media.url }
              rfl db.albums
          · show coverOkList _ media.url (album.media ++ [mediaId]) = true
            rw [hnil, List.nil_append]
            simp only [coverOkList]
            show decide (urlLookup (db.assets.map (fun a =>
              if a.id = mediaId then { a with albumId := some album.id } else a)) mediaId
                = some media.url) = true
            rw [urlLookup_setAlbum db.assets mediaId (some album.id) mediaId, hmurl]
            simp
        · next hlen =>
          have hne2 : album.media ≠ [] := by
            intro h
            exact hlen (by rw [h]; rfl)
          refine coverOkAll_update db _
            { album with media := album.media ++ [mediaId] } ?_ ?_ ?_ hcov
          · exact urlLookup_setAlbum db.assets mediaId (some album.id)
          · rfl
          · show coverOkList _ album.coverUrl (album.media ++ [mediaId]) = true
            cases hml : album.media with
            | nil => exact absurd hml hne2
            | cons c0 r0 =>
              rw [List.cons_append]
              simp only [coverOkList]
              show decide (urlLookup (db.assets.map (fun a =>
                if a.id = mediaId then { a with albumId := some album.id } else a)) c0
                  = some album.coverUrl) = true
              rw [urlLookup_setAlbum db.assets mediaId (some album.id) c0]
              have := hcov album halmem
              unfold coverOkB at this
              rw [hml] at this
              simpa [coverOkList] using this

/-- Detaching when the current album does not resolve is the identity. -/
theorem moveDetach_nofind (db : DB) (uid : Nat) (media : Asset) (curId : Nat)
    (h1 : media.albumId = some curId) (h2 : findAlbum db curId uid = none) :
    moveDetach db uid media = db := by
  simp only [moveDetach, h1, h2]

/-- The detach block of move-media preserves I4 for every album. -/
theorem moveDetach_coverOk (db : DB) (uid : Nat) (media : Asset)
    (hu : uniqAssets db) (hmem : media ∈ db.assets) (hres : Resolvable db)
    (hcov : ∀ al ∈ db.albums, coverOkB db al = true) :
    ∀ al ∈ (moveDetach db uid media).albums,
      coverOkB (moveDetach db uid media) al = true := by
  cases halb : media.albumId with
  | none =>
    rw [moveDetach_none db uid media halb]
    exact hcov
  | some curId =>
    cases hcur : findAlbum db curId uid with
    | none =>
      rw [moveDetach_nofind db uid media curId halb hcur]
      exact hcov
    | some cur =>
      have hcurmem : cur ∈ db.albums := (findAlbum_some hcur).1
      simp only [moveDetach, halb, hcur]
      by_cases hcoveq : cur.coverUrl = media.url
      · rw [if_pos hcoveq]
        cases hml : List.filter (fun i => decide (i ≠ media.id)) cur.media with
        | nil =>
          rw [recomputeCover_nil _ _ rfl]
          refine coverOkAll_update db _ { cur with media := [], coverUrl := "" }
            (fun i => rfl) ?_ ?_ hcov
          · exact map_update_twice (fun g => g.id) cur.id
              { cur with media := [] } { cur with media := [], coverUrl := "" } rfl db.albums
          · simp [coverOkList]
        | cons first rest =>
          rw [recomputeCover_cons _ _ first rest rfl]
          have hfmem : first ∈ cur.media := by
            have h1 : first ∈ List.filter (fun i => decide (i ≠ media.id)) cur.media := by
              rw [hml]
              exact List.mem_cons_self first rest
            exact List.mem_of_mem_filter h1
          obtain ⟨a, ha, hai⟩ := hres cur hcurmem first hfmem
          cases hff : findAssetById (saveAlbum db { cur with media := first :: rest }) first with
          | none =>
            have hex : ∃ b ∈ (saveAlbum db { cur with media := first :: rest }).assets,
                b.id = first := ⟨a, ha, hai⟩
            have hs := find_isSome hex
            unfold findAssetById at hff
            rw [hff] at hs
            cases hs
          | some fm =>
            refine coverOkAll_update db _
              { cur with media := first :: rest, coverUrl := fm.url }
              (fun i => rfl) ?_ ?_ hcov
            · exact map_update_twice (fun g => g.id) cur.id
                { cur with media := first :: rest }
                { cur with media := first :: rest, coverUrl := fm.url } rfl db.albums
            · show coverOkList _ fm.url (first :: rest) = true
              simp only [coverOkList]
              unfold findAssetById at hff
              unfold urlLookup
              show decide (Option.map (fun a => a.url)
                ((saveAlbum db { cur with media := first :: rest }).assets.find?
                  (fun a => a.id = first)) = some fm.url) = true
              rw [hff]
              simp
      · rw [if_neg hcoveq]
        refine coverOkAll_update db _
          { cur with media := List.filter (fun i => decide (i ≠ media.id)) cur.media }
          (fun i => rfl) rfl ?_ hcov
        cases hml : cur.media with
        | nil =>
          have hcc := hcov cur hcurmem
          unfold coverOkB at hcc
          rw [hml] at hcc
          simpa [coverOkList] using hcc
        | cons c0 r0 =>
          have hc0 : ¬ c0 = media.id := by
            intro h
            have hcc := hcov cur hcurmem
            unfold coverOkB at hcc
            rw [hml] at hcc
            simp only [coverOkList, decide_eq_true_eq] at hcc
            have hmu : urlLookup db.assets c0 = some media.url := by
              unfold urlLookup
              rw [h]
              rw [find?_key_unique (k := fun a => a.id) hu hmem (by simp)
                (fun b hb => by simpa using hb)]
              rfl
            rw [hmu] at hcc
            exact hcoveq (Option.some.inj hcc).symm
          rw [List.filter_cons_of_pos (by simpa using hc0)]
          simp only [coverOkList]
          have hcc := hcov cur hcurmem
          unfold coverOkB at hcc
          rw [hml] at hcc
          simpa [coverOkList] using hcc

/-- The attach block of move-media preserves I4 for every album. -/
theorem moveAttach_coverOk (db : DB) (uid : Nat) (media : Asset) (tgtOpt : Option Nat)
    (hu : uniqAssets db) (hmem : media ∈ db.assets)
    (hcov : ∀ al ∈ db.albums, coverOkB db al = true) :
    ∀ al ∈ (moveAttach db uid media tgtOpt).2.albums,
      coverOkB (moveAttach db uid media tgtOpt).2 al = true := by
  have hurlA : ∀ (aid : Option Nat) i, urlLookup (db.assets.map (fun a =>
      if a.id = media.id then { media with albumId := aid } else a)) i
        = urlLookup db.assets i := by
    intro aid i
    apply urlLookup_map
    · intro a _
      by_cases h : a.id = media.id <;> simp [h]
    · intro a ha
      by_cases h : a.id = media.id
      · have ham : a = media := keyInj hu ha hmem h
        subst ham
        simp [h]
      · simp [h]
  have hmurl : urlLookup db.assets media.id = some media.url := by
    unfold urlLookup
    rw [find?_key_unique (k := fun a => a.id) hu hmem (by simp)
      (fun b hb => by simpa using hb)]
    rfl
  cases tgtOpt with
  | none =>
    exact coverOkAll_ext db _ (fun i => hurlA none i) rfl hcov
  | some tid =>
    cases htgt : findAlbum db tid uid with
    | none =>
      simp only [moveAttach, htgt]
      exact hcov
    | some tgt =>
      have htmem : tgt ∈ db.albums := (findAlbum_some htgt).1
      simp only [moveAttach, htgt]
      by_cases hin : media.id ∈ tgt.media
      · rw [if_pos hin, if_pos hin]
        split
        · next hlen =>
          have hlen2 : tgt.media.length = 1 := hlen
          obtain ⟨x, hx⟩ := List.length_eq_one.mp hlen2
          have hxm : x = media.id := by
            rw [hx] at hin
            have hxm0 : media.id = x := by simpa using hin
            exact hxm0.symm
          refine coverOkAll_update db _ { tgt with coverUrl := media.url }
            (fun i => hurlA (some tid) i) rfl ?_ hcov
          show coverOkList _ media.url tgt.media = true
          rw [hx, hxm]
          simp only [coverOkList]
          show decide (urlLookup (db.assets.map (fun a =>
            if a.id = media.id then { media with albumId := some tid } else a)) media.id
              = some media.url) = true
          rw [hurlA (some tid) media.id, hmurl]
          simp
        · next hlen =>
          exact coverOkAll_ext db _ (fun i => hurlA (some tid) i) rfl hcov
      · rw [if_neg hin, if_neg hin]
        split
        · next hlen =>
          have hlen2 : (tgt.media ++ [media.id]).length = 1 := hlen
          have hnil : tgt.media = [] := by
            rw [List.length_append] at hlen2
            simp at hlen2
            exact hlen2
          refine coverOkAll_update db _
            { tgt with media := tgt.media ++ [media.id], coverUrl := media.url }
            (fun i => hurlA (some tid) i) ?_ ?_ hcov
          · exact map_update_twice (fun g => g.id) tgt.id
              { tgt with media := tgt.media ++ [media.id] }
              { tgt with media := tgt.media ++ [media.id], coverUrl := media.url }
              rfl db.albums
          · show coverOkList _ media.url (tgt.media ++ [media.id]) = true
            rw [hnil, List.nil_append]
            simp only [coverOkList]
            show decide (urlLookup (db.assets.map (fun a =>
              if a.id = media.id then { media with albumId := some tid } else a)) media.id
                = some media.url) = true
            rw [hurlA (some tid) media.id, hmurl]
            simp
        · next hlen =>
          have hne2 : tgt.media ≠ [] := by
            intro h
            exact hlen (by rw [h]; rfl)
          refine coverOkAll_update db _
            { tgt with media := tgt.media ++ [media.id] }
            (fun i => hurlA (some tid) i) rfl ?_ hcov
          show coverOkList _ tgt.coverUrl (tgt.media ++ [media.id]) = true
          cases hml : tgt.media with
          | nil => exact absurd hml hne2
          | cons c0 r0 =>
            rw [List.cons_append]
            simp only [coverOkList]
            show decide (urlLookup (db.assets.map (fun a =>
              if a.id = media.id then { media with albumId := some tid } else a)) c0
                = some tgt.coverUrl) = true
            rw [hurlA (some tid) c0]
            have hcc := hcov tgt htmem
            unfold coverOkB at hcc
            rw [hml] at hcc
            simpa [coverOkList] using hcc

/-- A successful url lookup exhibits a member carrying the id. -/
theorem urlLookup_some_mem {l : List Asset} {i : Nat} {c : String}
    (h : urlLookup l i = some c) : ∃ a ∈ l, a.id = i := by
  unfold urlLookup at h
  cases hf : l.find? (fun a => a.id = i) with
  | none =>
    rw [hf] at h
    simp at h
  | some a =>
    refine ⟨a, List.mem_of_find?_eq_some hf, ?_⟩
    have hp := List.find?_some hf
    simpa using hp

/-- The I4 condition of one album survives appending a new asset record. -/
theorem coverOkList_append {l : List Asset} {doc : Asset} {c : String} {ml : List Nat}
    (h : coverOkList l c ml = true) : coverOkList (l ++ [doc]) c ml = true := by
  cases ml with
  | nil => exact h
  | cons first rest =>
    simp only [coverOkList] at h ⊢
    have hsome : urlLookup l first = some c := of_decide_eq_true h
    rw [urlLookup_append_old (urlLookup_some_mem hsome), hsome]
    simp

/-- A singleton member list pointing at the freshly appended record satisfies
I4 with that record's url as cover. -/
theorem coverOkList_singleton_new {l : List Asset} {doc : Asset}
    (hfresh : ∀ a ∈ l, ¬ a.id = doc.id) :
    coverOkList (l ++ [doc]) doc.url [doc.id] = true := by
  simp only [coverOkList]
  rw [urlLookup_append_new hfresh]
  simp

/-- Global I4 survives a state change appending one asset record and
replacing one album record satisfying I4 against the grown list. -/
theorem coverOkAll_append (db db' : DB) (doc : Asset) (X : Album)
    (hassets : db'.assets = db.assets ++ [doc])
    (halb : db'.albums = db.albums.map (fun g => if g.id = X.id then X else g))
    (hX : coverOkList (db.assets ++ [doc]) X.coverUrl X.media = true)
    (hcov : ∀ al ∈ db.albums, coverOkB db al = true) :
    ∀ al ∈ db'.albums, coverOkB db' al = true := by
  intro al hal
  rw [halb] at hal
  obtain ⟨g, hg, rfl⟩ := List.mem_map.mp hal
  unfold coverOkB
  rw [hassets]
  by_cases hid : g.id = X.id
  · rw [if_pos hid]
    exact hX
  · rw [if_neg hid]
    exact coverOkList_append (hcov g hg)

/-- Global I4 survives a state change appending one asset record and keeping
the albums. -/
theorem coverOkAll_append_ext (db db' : DB) (doc : Asset)
    (hassets : db'.assets = db.assets ++ [doc])
    (halb : db'.albums = db.albums)
    (hcov : ∀ al ∈ db.albums, coverOkB db al = true) :
    ∀ al ∈ db'.albums, coverOkB db' al = true := by
  intro al hal
  rw [halb] at hal
  unfold coverOkB
  rw [hassets]
  exact coverOkList_append (hcov al hal)

/-- A fresh upload preserves I4 for every album. -/
theorem uploadOne_coverOk (db : DB) (uid newId : Nat) (name mtype url pid : String)
    (size now : Nat) (albumId : Option Nat)
    (hfresh : ∀ a ∈ db.assets, ¬ a.id = newId)
    (hcov : ∀ al ∈ db.albums, coverOkB db al = true) :
    ∀ al ∈ (uploadOne db uid newId name mtype url pid size now albumId).albums,
      coverOkB (uploadOne db uid newId name mtype url pid size now albumId) al = true := by
  cases albumId with
  | none =>
    exact coverOkAll_append_ext db _ _ rfl rfl hcov
  | some aid =>
    simp only [uploadOne]
    split
    · next hfa =>
      exact coverOkAll_append_ext db _ _ rfl rfl hcov
    · next album hfa =>
      have halmem : album ∈ db.albums := (findAlbum_some hfa).1
      by_cases hin : newId ∈ album.media
      · rw [if_pos hin, if_pos hin]
        split
        · next hlen =>
          have hlen2 : album.media.length = 1 := hlen
          obtain ⟨x, hx⟩ := List.length_eq_one.mp hlen2
          have hxm : x = newId := by
            rw [hx] at hin
            have h0 : newId = x := by simpa using hin
            exact h0.symm
          refine coverOkAll_append db _ _ { album with coverUrl := url } rfl rfl ?_ hcov
          show coverOkList _ url album.media = true
          rw [hx, hxm]
          exact coverOkList_singleton_new (fun a ha => hfresh a ha)
        · next hlen =>
          exact coverOkAll_append_ext db _ _ rfl rfl hcov
      · rw [if_neg hin, if_neg hin]
        split
        · next hlen =>
          have hlen2 : (album.media ++ [newId]).length = 1 := hlen
          have hnil : album.media = [] := by
            rw [List.length_append] at hlen2
            simp at hlen2
            exact hlen2
          refine coverOkAll_append db _ _
            { { album with media := album.media ++ [newId] } with coverUrl := url }
            rfl ?_ ?_ hcov
          · exact map_update_twice (fun g => g.id) album.id
              { album with media := album.media ++ [newId] }
              { { album with media := album.media ++ [newId] } with coverUrl := url }
              rfl db.albums
          · show coverOkList _ url (album.media ++ [newId]) = true
            rw [hnil, List.nil_append]
            exact coverOkList_singleton_new (fun a ha => hfresh a ha)
        · next hlen =>
          have hne2 : album.media ≠ [] := by
            intro h
            exact hlen (by rw [h]; rfl)
          refine coverOkAll_append db _ _
            { album with media := album.media ++ [newId] } rfl rfl ?_ hcov
          show coverOkList _ album.coverUrl (album.media ++ [newId]) = true
          cases hml : album.media with
          | nil => exact absurd hml hne2
          | cons c0 r0 =>
            rw [List.cons_append]
            have hcc := hcov album halmem
            unfold coverOkB at hcc
            rw [hml] at hcc
            simp only [coverOkList] at hcc ⊢
            have hsome : urlLookup db.assets c0 = some album.coverUrl :=
              of_decide_eq_true hcc
            rw [urlLookup_append_old (urlLookup_some_mem hsome), hsome]
            simp

/-- Move-media preserves I4 for every album. -/
theorem moveMedia_coverOk (db : DB) (uid mediaId : Nat) (tgtOpt : Option Nat)
    (hu : uniqAssets db) (hres : Resolvable db)
    (hcov : ∀ al ∈ db.albums, coverOkB db al = true) :
    ∀ al ∈ (moveMedia db uid mediaId tgtOpt).2.albums,
      coverOkB (moveMedia db uid mediaId tgtOpt).2 al = true := by
  cases hfa : findAsset db mediaId uid with
  | none =>
    simp only [moveMedia, hfa]
    exact hcov
  | some media =>
    simp only [moveMedia, hfa]
    have hmem : media ∈ db.assets := (findAsset_some hfa).1
    have hassets := moveDetach_assets db uid media
    have hu1 : uniqAssets (moveDetach db uid media) := by
      show ((moveDetach db uid media).assets.map (fun a => a.id)).Nodup
      rw [hassets]
      exact hu
    have hmem1 : media ∈ (moveDetach db uid media).assets := by
      rw [hassets]
      exact hmem
    exact moveAttach_coverOk (moveDetach db uid media) uid media tgtOpt hu1 hmem1
      (moveDetach_coverOk db uid media hu hmem hres hcov)

/-- Resolvability of a concrete store is checkable. -/
instance (db : DB) : Decidable (Resolvable db) := by
  unfold Resolvable
  infer_instance

/-- C3: after add-media, remove-media, move-media and upload into an album,
every folder of the store satisfies I4 — the cover equals the url of the
asset at the head of the member list, or the empty string for an empty list.
Bulk-move-media is excluded: it never updates covers (see the
counterexample). -/
theorem C3_cover_invariant (db : DB) (uid : Nat)
    (hu : uniqAssets db) (hres : Resolvable db)
    (hcov : ∀ al ∈ db.albums, coverOkB db al = true) :
    (∀ albumId mediaId, ∀ al ∈ (addMedia db uid albumId mediaId).2.albums,
        coverOkB (addMedia db uid albumId mediaId).2 al = true)
    ∧ (∀ albumId mediaId, ∀ al ∈ (removeMedia db uid albumId mediaId).2.albums,
        coverOkB (removeMedia db uid albumId mediaId).2 al = true)
    ∧ (∀ mediaId tgtOpt, ∀ al ∈ (moveMedia db uid mediaId tgtOpt).2.albums,
        coverOkB (moveMedia db uid mediaId tgtOpt).2 al = true)
    ∧ (∀ newId nm mtype url pid size now albumId,
        (∀ a ∈ db.assets, ¬ a.id = newId) →
        ∀ al ∈ (uploadOne db uid newId nm mtype url pid size now albumId).albums,
          coverOkB (uploadOne db uid newId nm mtype url pid size now albumId) al = true) :=
  ⟨fun albumId mediaId => addMedia_coverOk db uid albumId mediaId hu hcov,
   fun albumId mediaId => removeMedia_coverOk db uid albumId mediaId hres hcov,
   fun mediaId tgtOpt => moveMedia_coverOk db uid mediaId tgtOpt hu hres hcov,
   fun newId nm mtype url pid size now albumId hfresh =>
     uploadOne_coverOk db uid newId nm mtype url pid size now albumId hfresh hcov⟩

/-- Concrete instance of the I4 preservation theorem: adding asset 2 to the
empty folder 20 of the example store yields folder record (20, cover u2,
media [2]) and the invariant holds on it. -/
theorem C3_cover_invariant_witness :
    uniqAssets exDb ∧ Resolvable exDb ∧
    coverOkB (addMedia exDb 7 20 2).2 (mkAlbum 20 7 "F2" "u2" [2] (some 10)) = true :=
  ⟨by decide, by decide,
   (C3_cover_invariant exDb 7 (by decide) (by decide) (by decide)).1 20 2
     (mkAlbum 20 7 "F2" "u2" [2] (some 10)) (by decide)⟩

/-- Refutation of I4 for bulk-move-media: the route moves asset 2 into the
empty folder 20 and reports success, yet the folder's cover stays the empty
string while its member list is now [2] — the cover no longer equals the url
u2 of the head member, although the starting store satisfied I4
everywhere. -/
theorem C3_cover_invariant_counterexample :
    uniqAssets exDb ∧ Resolvable exDb ∧
    (∀ al ∈ exDb.albums, coverOkB exDb al = true) ∧
    (bulkMoveMedia exDb 7 [2] (some 20)).1 = .ok 1 ∧
    (mkAlbum 20 7 "F2" "" [2] (some 10)) ∈ (bulkMoveMedia exDb 7 [2] (some 20)).2.albums ∧
    coverOkB (bulkMoveMedia exDb 7 [2] (some 20)).2 (mkAlbum 20 7 "F2" "" [2] (some 10))
      = false := by
  decide

/-- Strict descendants of a node id: ids of album records whose
`parentAlbumId` chain reaches the root id. -/
inductive DescOf (db : DB) (root : Nat) : Nat → Prop where
  | child : ∀ {c : Album}, c ∈ db.albums → c.parentAlbumId = some root →
      DescOf db root c.id
  | step : ∀ {c : Album} {m : Nat}, c ∈ db.albums → DescOf db root m →
      c.parentAlbumId = some m → DescOf db root c.id

/-- The upward parent chain from id `g` reaches id `t`. -/
def Chain (db : DB) (g t : Nat) : Prop := g = t ∨ DescOf db t g

/-- A descendant id is carried by some album record. -/
theorem DescOf_inv {db : DB} {r x : Nat} (h : DescOf db r x) :
    ∃ c ∈ db.albums, c.id = x := by
  cases h with
  | child hc _ => exact ⟨_, hc, rfl⟩
  | step hc _ _ => exact ⟨_, hc, rfl⟩

/-- Descendant chains transfer from a sub-store to the full store. -/
theorem DescOf_mono {db mid : DB} (hsub : mid.albums.Sublist db.albums)
    {r x : Nat} (h : DescOf mid r x) : DescOf db r x := by
  induction h with
  | child hc hp => exact .child (hsub.mem hc) hp
  | step hc _ hp ih => exact .step (hsub.mem hc) ih hp

/-- Extending a descendant chain upward through a parent edge. -/
theorem DescOf_append {db : DB} {d : Album} {r x : Nat}
    (hd : d ∈ db.albums) (hp : d.parentAlbumId = some r)
    (h : DescOf db d.id x) : DescOf db r x := by
  induction h with
  | child hc hcp => exact .step hc (.child hd hp) hcp
  | step hc _ hcp ih => exact .step hc ih hcp

/-- A chain reaching a child of `r` makes its start a descendant of `r`. -/
theorem Chain_lift {db : DB} {d : Album} {r x : Nat}
    (hd : d ∈ db.albums) (hp : d.parentAlbumId = some r)
    (h : Chain db x d.id) : DescOf db r x := by
  cases h with
  | inl he => exact he ▸ .child hd hp
  | inr hdesc => exact DescOf_append hd hp hdesc

/-- Descendant chains compose. -/
theorem DescOf_trans {db : DB} {t m x : Nat}
    (h1 : DescOf db t m) (h2 : DescOf db m x) : DescOf db t x := by
  induction h2 with
  | child hc hp => exact .step hc h1 hp
  | step hc _ hp ih => exact .step hc ih hp

/-- Chains compose. -/
theorem Chain_trans {db : DB} {x m t : Nat}
    (h1 : Chain db x m) (h2 : Chain db m t) : Chain db x t := by
  cases h1 with
  | inl he => exact he ▸ h2
  | inr hd1 =>
    cases h2 with
    | inl he => exact .inr (he ▸ hd1)
    | inr hd2 => exact .inr (DescOf_trans hd2 hd1)

/-- Every descendant chain passes through a direct child of the root. -/
theorem DescOf_split {db : DB} {r x : Nat} (h : DescOf db r x) :
    ∃ d ∈ db.albums, d.parentAlbumId = some r ∧ Chain db x d.id := by
  induction h with
  | child hc hp => exact ⟨_, hc, hp, .inl rfl⟩
  | step hc _ hp ih =>
    obtain ⟨d, hd, hdp, hch⟩ := ih
    exact ⟨d, hd, hdp, Chain_trans (.inr (.child hc hp)) hch⟩

/-- An id carried by some album record of the store. -/
def liveId (db : DB) (t : Nat) : Prop := ∃ m ∈ db.albums, m.id = t

/-- A descendant chain of the full store either lives in a sub-store or
passes through a record missing from it. -/
theorem DescOf_restrict {db : DB} (mid : DB) {t x : Nat}
    (h : DescOf db t x) :
    DescOf mid t x ∨
      ∃ m ∈ db.albums, ¬ m ∈ mid.albums ∧ Chain db x m.id ∧ Chain db m.id t := by
  induction h with
  | child hc hp =>
    rename_i c
    by_cases hmid : c ∈ mid.albums
    · exact .inl (.child hmid hp)
    · exact .inr ⟨c, hc, hmid, .inl rfl, .inr (.child hc hp)⟩
  | step hc hm hp ih =>
    rename_i c m
    by_cases hmid : c ∈ mid.albums
    · cases ih with
      | inl hin => exact .inl (.step hmid hin hp)
      | inr hdead =>
        obtain ⟨w, hw, hwn, hlow, hup⟩ := hdead
        exact .inr ⟨w, hw, hwn, Chain_trans (.inr (.child hc hp)) hlow, hup⟩
    · exact .inr ⟨c, hc, hmid, .inl rfl, .inr (.step hc hm hp)⟩

/-- An empty worklist finishes immediately. -/
theorem delWork_nil (fuel : Nat) (db : DB) : delWork fuel db [] = some db := by
  unfold delWork
  rfl

/-- A nonempty worklist with no fuel exhausts. -/
theorem delWork_zero (db : DB) (c : Album) (rest : List Album) :
    delWork 0 db (c :: rest) = none := by
  unfold delWork
  rfl

/-- The one-step unfolding of the `deleteChildren` worklist recursion. -/
theorem delWork_succ (fuel1 : Nat) (db : DB) (c : Album) (rest : List Album) :
    delWork (fuel1 + 1) db (c :: rest) =
      match delWork fuel1 db (childrenOf db c.id) with
      | none => none
      | some db1 =>
        delWork (fuel1 + 1)
          (removeAlbum (if c.media.isEmpty then db1 else clearAlbumIds db1 c.media) c.id)
          rest := by
  conv_lhs => rw [delWork]

/-- The member-clearing step touches no album record. -/
theorem clearStep_albums (db1 : DB) (ms : List Nat) :
    (if ms.isEmpty then db1 else clearAlbumIds db1 ms).albums = db1.albums := by
  split <;> rfl

/-- Album-id uniqueness restricts to sub-stores. -/
theorem uniqAlbums_sublist {db mid : DB} (hsub : mid.albums.Sublist db.albums)
    (hu : uniqAlbums db) : uniqAlbums mid :=
  List.Nodup.sublist (hsub.map (fun a => a.id)) hu

/-- The worklist recursion only removes album records. -/
theorem delWork_sublist :
    ∀ (fuel : Nat) (db : DB) (work : List Album) (db' : DB),
      delWork fuel db work = some db' → db'.albums.Sublist db.albums := by
  intro fuel
  induction fuel with
  | zero =>
    intro db work db' h
    cases work with
    | nil =>
      rw [delWork_nil] at h
      cases h
      exact List.Sublist.refl _
    | cons c rest =>
      rw [delWork_zero] at h
      cases h
  | succ fuel1 ihf =>
    intro db work
    induction work generalizing db with
    | nil =>
      intro db' h
      rw [delWork_nil] at h
      cases h
      exact List.Sublist.refl _
    | cons c rest ihw =>
      intro db' h
      rw [delWork_succ] at h
      cases hd : delWork fuel1 db (childrenOf db c.id) with
      | none => rw [hd] at h; cases h
      | some db1 =>
        rw [hd] at h
        have h1 : db'.albums.Sublist
            (removeAlbum (if c.media.isEmpty then db1 else clearAlbumIds db1 c.media)
              c.id).albums := ihw _ db' h
        have h2 : (removeAlbum (if c.media.isEmpty then db1 else clearAlbumIds db1 c.media)
            c.id).albums.Sublist db1.albums := by
          show ((if c.media.isEmpty then db1 else clearAlbumIds db1 c.media).albums.filter
            (fun a => a.id ≠ c.id)).Sublist db1.albums
          rw [clearStep_albums]
          exact List.filter_sublist _
        exact (h1.trans h2).trans (ihf db (childrenOf db c.id) db1 hd)

/-- Every worklist id is gone from the resulting store. -/
theorem delWork_removes :
    ∀ (fuel : Nat) (db : DB) (work : List Album) (db' : DB),
      delWork fuel db work = some db' → ∀ c ∈ work, ¬ liveId db' c.id := by
  intro fuel
  induction fuel with
  | zero =>
    intro db work db' h c hc
    cases work with
    | nil => cases hc
    | cons c0 rest =>
      rw [delWork_zero] at h
      cases h
  | succ fuel1 ihf =>
    intro db work
    induction work generalizing db with
    | nil =>
      intro db' h c hc
      cases hc
    | cons c0 rest ihw =>
      intro db' h c hc
      rw [delWork_succ] at h
      cases hd : delWork fuel1 db (childrenOf db c0.id) with
      | none => rw [hd] at h; cases h
      | some db1 =>
        rw [hd] at h
        cases List.mem_cons.mp hc with
        | inr hcr => exact ihw _ db' h c hcr
        | inl hce =>
          subst hce
          intro hlive
          obtain ⟨m, hm, hmid⟩ := hlive
          have hmm : m ∈ (removeAlbum
              (if c.media.isEmpty then db1 else clearAlbumIds db1 c.media) c.id).albums :=
            (delWork_sublist _ _ _ _ h).mem hm
          have : m.id ≠ c.id := by
            have hf := List.mem_filter.mp hmm
            simpa using hf.2
          exact this hmid

/-- The albums surviving the clear-and-remove step of one worklist item. -/
theorem removeStep_sublist (db1 : DB) (ms : List Nat) (i : Nat) :
    (removeAlbum (if ms.isEmpty then db1 else clearAlbumIds db1 ms) i).albums.Sublist
      db1.albums := by
  show ((if ms.isEmpty then db1 else clearAlbumIds db1 ms).albums.filter
    (fun a => a.id ≠ i)).Sublist db1.albums
  rw [clearStep_albums]
  exact List.filter_sublist _

/-- No album surviving the worklist recursion has a parent chain reaching an
id that the recursion deleted. -/
theorem delWork_avoid :
    ∀ (fuel : Nat) (db : DB) (work : List Album) (db' : DB),
      uniqAlbums db → delWork fuel db work = some db' →
      ∀ g ∈ db'.albums, ∀ t, liveId db t → ¬ liveId db' t → ¬ Chain db g.id t := by
  intro fuel
  induction fuel with
  | zero =>
    intro db work db' hu h g hg t hlive hdead hch
    cases work with
    | nil =>
      rw [delWork_nil] at h
      cases h
      exact hdead hlive
    | cons c rest =>
      rw [delWork_zero] at h
      cases h
  | succ fuel1 ihf =>
    intro db work
    induction work generalizing db with
    | nil =>
      intro db' hu h g hg t hlive hdead hch
      rw [delWork_nil] at h
      cases h
      exact hdead hlive
    | cons c rest ihw =>
      intro db' hu h g hg t hlive hdead hch
      rw [delWork_succ] at h
      cases hd : delWork fuel1 db (childrenOf db c.id) with
      | none => rw [hd] at h; cases h
      | some db1 =>
        rw [hd] at h
        have hsub1 : db1.albums.Sublist db.albums := delWork_sublist fuel1 db _ db1 hd
        have hmidsub : (removeAlbum
            (if c.media.isEmpty then db1 else clearAlbumIds db1 c.media) c.id).albums.Sublist
              db1.albums := removeStep_sublist db1 c.media c.id
        have hsub2 : db'.albums.Sublist (removeAlbum
            (if c.media.isEmpty then db1 else clearAlbumIds db1 c.media) c.id).albums :=
          delWork_sublist _ _ rest db' h
        have hg_mid : g ∈ (removeAlbum
            (if c.media.isEmpty then db1 else clearAlbumIds db1 c.media) c.id).albums :=
          hsub2.mem hg
        have hg1 : g ∈ db1.albums := hmidsub.mem hg_mid
        have humid : uniqAlbums (removeAlbum
            (if c.media.isEmpty then db1 else clearAlbumIds db1 c.media) c.id) :=
          uniqAlbums_sublist (hmidsub.trans hsub1) hu
        have ih1 := ihf db (childrenOf db c.id) db1 hu hd
        have hp1 := delWork_removes fuel1 db (childrenOf db c.id) db1 hd
        have helper : ∀ s, liveId db s → ¬ liveId (removeAlbum
            (if c.media.isEmpty then db1 else clearAlbumIds db1 c.media) c.id) s →
            Chain db g.id s → False := by
          intro s hls hds hchs
          by_cases h1 : liveId db1 s
          · obtain ⟨m, hm1, hmid⟩ := h1
            have hmc : m.id = c.id := by
              by_contra hne
              apply hds
              refine ⟨m, ?_, hmid⟩
              show m ∈ ((if c.media.isEmpty then db1 else clearAlbumIds db1 c.media).albums.filter
                (fun a => a.id ≠ c.id))
              rw [clearStep_albums]
              exact List.mem_filter.mpr ⟨hm1, by simpa using hne⟩
            have hsc : s = c.id := by
              rw [← hmid]
              exact hmc
            subst hsc
            cases hchs with
            | inl hge =>
              have hgf := List.mem_filter.mp (show g ∈
                ((if c.media.isEmpty then db1 else clearAlbumIds db1 c.media).albums.filter
                  (fun a => a.id ≠ c.id)) from hg_mid)
              have : g.id ≠ c.id := by simpa using hgf.2
              exact this hge
            | inr hdesc =>
              obtain ⟨d, hddb, hdp, hchd⟩ := DescOf_split hdesc
              have hdchild : d ∈ childrenOf db c.id := by
                unfold childrenOf
                exact List.mem_filter.mpr ⟨hddb, by simp [hdp]⟩
              exact ih1 g hg1 d.id ⟨d, hddb, rfl⟩ (hp1 d hdchild) hchd
          · exact ih1 g hg1 s hls h1 hchs
        by_cases hmt : liveId (removeAlbum
            (if c.media.isEmpty then db1 else clearAlbumIds db1 c.media) c.id) t
        · cases hch with
          | inl hge => exact hdead ⟨g, hg, hge⟩
          | inr hdesc =>
            cases DescOf_restrict (removeAlbum
                (if c.media.isEmpty then db1 else clearAlbumIds db1 c.media) c.id) hdesc with
            | inl hin =>
              exact ihw _ db' humid h g hg t hmt hdead (.inr hin)
            | inr hdd =>
              obtain ⟨m, hmdb, hmnot, hlow, hup⟩ := hdd
              have hdm : ¬ liveId (removeAlbum
                  (if c.media.isEmpty then db1 else clearAlbumIds db1 c.media) c.id) m.id := by
                rintro ⟨r, hr, hrid⟩
                have hrdb : r ∈ db.albums := hsub1.mem (hmidsub.mem hr)
                have hre : r = m := keyInj hu hrdb hmdb hrid
                exact hmnot (hre ▸ hr)
              exact helper m.id ⟨m, hmdb, rfl⟩ hdm hlow
        · exact helper t hlive hmt hch

/-- Unpacking membership in a fetched children list. -/
theorem childrenOf_mem {db : DB} {pid : Nat} {d : Album}
    (h : d ∈ childrenOf db pid) : d ∈ db.albums ∧ d.parentAlbumId = some pid := by
  unfold childrenOf at h
  have hf := List.mem_filter.mp h
  exact ⟨hf.1, by simpa using hf.2⟩

/-- Packing membership into a fetched children list. -/
theorem childrenOf_mem_of {db : DB} {pid : Nat} {d : Album}
    (hd : d ∈ db.albums) (hp : d.parentAlbumId = some pid) : d ∈ childrenOf db pid := by
  unfold childrenOf
  exact List.mem_filter.mpr ⟨hd, by simp [hp]⟩

/-- Every album id the worklist recursion deletes had a parent chain reaching
a worklist element: deletion is sound. -/
theorem delWork_sound :
    ∀ (fuel : Nat) (db : DB) (work : List Album) (db' : DB),
      delWork fuel db work = some db' →
      ∀ m ∈ db.albums, ¬ liveId db' m.id → ∃ c ∈ work, Chain db m.id c.id := by
  intro fuel
  induction fuel with
  | zero =>
    intro db work db' h m hm hdead
    cases work with
    | nil =>
      rw [delWork_nil] at h
      cases h
      exact absurd ⟨m, hm, rfl⟩ hdead
    | cons c rest =>
      rw [delWork_zero] at h
      cases h
  | succ fuel1 ihf =>
    intro db work
    induction work generalizing db with
    | nil =>
      intro db' h m hm hdead
      rw [delWork_nil] at h
      cases h
      exact absurd ⟨m, hm, rfl⟩ hdead
    | cons c rest ihw =>
      intro db' h m hm hdead
      rw [delWork_succ] at h
      cases hd : delWork fuel1 db (childrenOf db c.id) with
      | none => rw [hd] at h; cases h
      | some db1 =>
        rw [hd] at h
        have hsub1 : db1.albums.Sublist db.albums := delWork_sublist fuel1 db _ db1 hd
        have hmidsub : (removeAlbum
            (if c.media.isEmpty then db1 else clearAlbumIds db1 c.media) c.id).albums.Sublist
              db1.albums := removeStep_sublist db1 c.media c.id
        by_cases hmid : liveId (removeAlbum
            (if c.media.isEmpty then db1 else clearAlbumIds db1 c.media) c.id) m.id
        · obtain ⟨r, hr, hrid⟩ := hmid
          have hdr : ¬ liveId db' r.id := by
            rw [hrid]
            exact hdead
          obtain ⟨c', hc', hch⟩ := ihw _ db' h r hr hdr
          refine ⟨c', List.mem_cons_of_mem c hc', ?_⟩
          have hchdb : Chain db r.id c'.id := by
            cases hch with
            | inl he => exact .inl he
            | inr hdesc => exact .inr (DescOf_mono (hmidsub.trans hsub1) hdesc)
          rw [← hrid]
          exact hchdb
        · by_cases h1 : liveId db1 m.id
          · obtain ⟨r, hr1, hrid⟩ := h1
            have hrc : r.id = c.id := by
              by_contra hne
              apply hmid
              refine ⟨r, ?_, hrid⟩
              show r ∈ ((if c.media.isEmpty then db1 else clearAlbumIds db1 c.media).albums.filter
                (fun a => a.id ≠ c.id))
              rw [clearStep_albums]
              exact List.mem_filter.mpr ⟨hr1, by simpa using hne⟩
            refine ⟨c, List.mem_cons_self c rest, .inl ?_⟩
            rw [← hrid]
            exact hrc
          · obtain ⟨d, hdch, hch⟩ := ihf db (childrenOf db c.id) db1 hd m hm h1
            obtain ⟨hddb, hdp⟩ := childrenOf_mem hdch
            exact ⟨c, List.mem_cons_self c rest,
              Chain_trans hch (.inr (.child hddb hdp))⟩

/-- Relation between an asset record before and after the deletion cascade:
kept verbatim, or kept with its `albumId` unset. -/
def AssetRel (a b : Asset) : Prop := b = a ∨ b = { a with albumId := none }

/-- Unsetting `albumId` twice is unsetting it once, so the relation
composes. -/
theorem AssetRel_trans {a b c : Asset} (h1 : AssetRel a b) (h2 : AssetRel b c) :
    AssetRel a c := by
  cases h1 with
  | inl he => exact he ▸ h2
  | inr he =>
    cases h2 with
    | inl he2 => exact .inr (he2.trans he)
    | inr he2 =>
      refine .inr ?_
      rw [he2, he]

/-- Every list is framewise related to itself. -/
theorem assetRel_refl (l : List Asset) : List.Forall₂ AssetRel l l :=
  List.forall₂_same.mpr (fun _ _ => .inl rfl)

/-- A pointwise related map is framewise related. -/
theorem assetRel_map (l : List Asset) (f : Asset → Asset)
    (h : ∀ a, AssetRel a (f a)) : List.Forall₂ AssetRel l (l.map f) := by
  induction l with
  | nil => exact .nil
  | cons a t ih => exact .cons (h a) ih

/-- The frame relation composes along lists. -/
theorem assetRel_forall2_trans :
    ∀ {l1 l2 l3 : List Asset}, List.Forall₂ AssetRel l1 l2 →
      List.Forall₂ AssetRel l2 l3 → List.Forall₂ AssetRel l1 l3 := by
  intro l1 l2 l3 h1 h2
  induction h1 generalizing l3 with
  | nil =>
    cases h2
    exact .nil
  | cons hab h ih =>
    cases h2 with
    | cons hbc h2t => exact .cons (AssetRel_trans hab hbc) (ih h2t)

/-- A member of the right list of a frame has a related source member. -/
theorem assetRel_mem_right :
    ∀ {l1 l2 : List Asset}, List.Forall₂ AssetRel l1 l2 →
      ∀ b ∈ l2, ∃ a ∈ l1, AssetRel a b := by
  intro l1 l2 h
  induction h with
  | nil =>
    intro b hb
    cases hb
  | cons hab ht ih =>
    intro b hb
    cases List.mem_cons.mp hb with
    | inl he => exact ⟨_, List.mem_cons_self _ _, he ▸ hab⟩
    | inr hm =>
      obtain ⟨a, ha, har⟩ := ih b hm
      exact ⟨a, List.mem_cons_of_mem _ ha, har⟩

/-- The member-clearing step is a frame. -/
theorem clearStep_frame (db1 : DB) (ms : List Nat) :
    List.Forall₂ AssetRel db1.assets
      (if ms.isEmpty then db1 else clearAlbumIds db1 ms).assets := by
  split
  · exact assetRel_refl _
  · refine assetRel_map _ _ ?_
    intro a
    by_cases h : a.id ∈ ms
    · exact .inr (by simp [h])
    · exact .inl (by simp [h])

/-- The deletion cascade never deletes an asset record: the resulting asset
list is the original one with some `albumId` fields unset, in order. -/
theorem delWork_assets :
    ∀ (fuel : Nat) (db : DB) (work : List Album) (db' : DB),
      delWork fuel db work = some db' →
      List.Forall₂ AssetRel db.assets db'.assets := by
  intro fuel
  induction fuel with
  | zero =>
    intro db work db' h
    cases work with
    | nil =>
      rw [delWork_nil] at h
      cases h
      exact assetRel_refl _
    | cons c rest =>
      rw [delWork_zero] at h
      cases h
  | succ fuel1 ihf =>
    intro db work
    induction work generalizing db with
    | nil =>
      intro db' h
      rw [delWork_nil] at h
      cases h
      exact assetRel_refl _
    | cons c rest ihw =>
      intro db' h
      rw [delWork_succ] at h
      cases hd : delWork fuel1 db (childrenOf db c.id) with
      | none => rw [hd] at h; cases h
      | some db1 =>
        rw [hd] at h
        have h1 := ihf db (childrenOf db c.id) db1 hd
        have h2 := clearStep_frame db1 c.media
        have h3 := ihw _ db' h
        exact assetRel_forall2_trans (assetRel_forall2_trans h1 h2) h3

/-- Every asset record carrying this id has its `albumId` unset. -/
def clearedAt (db : DB) (i : Nat) : Prop :=
  ∀ a ∈ db.assets, a.id = i → a.albumId = none

/-- A cleared id stays cleared across a frame: the frame never reattaches an
asset. -/
theorem clearedAt_frame {db db' : DB} {i : Nat}
    (hf : List.Forall₂ AssetRel db.assets db'.assets)
    (h : clearedAt db i) : clearedAt db' i := by
  intro b hb hbid
  obtain ⟨a, ha, har⟩ := assetRel_mem_right hf b hb
  cases har with
  | inl he =>
    subst he
    exact h b ha hbid
  | inr he =>
    rw [he]
  
/-- The clearing step clears each listed id. -/
theorem clearAlbumIds_cleared (db : DB) (ids : List Nat) (i : Nat) (hi : i ∈ ids) :
    clearedAt (clearAlbumIds db ids) i := by
  intro b hb hbid
  obtain ⟨a, ha, hfa⟩ := List.mem_map.mp hb
  by_cases h : a.id ∈ ids
  · rw [if_pos h] at hfa
    rw [← hfa]
  · rw [if_neg h] at hfa
    subst hfa
    rw [hbid] at h
    exact absurd hi h

/-- The captured member list of every worklist element is cleared in the
resulting store. -/
theorem delWork_clear_work :
    ∀ (fuel : Nat) (db : DB) (work : List Album) (db' : DB),
      delWork fuel db work = some db' →
      ∀ c ∈ work, ∀ i ∈ c.media, clearedAt db' i := by
  intro fuel
  induction fuel with
  | zero =>
    intro db work db' h c hc
    cases work with
    | nil => cases hc
    | cons c0 rest =>
      rw [delWork_zero] at h
      cases h
  | succ fuel1 ihf =>
    intro db work
    induction work generalizing db with
    | nil =>
      intro db' h c hc
      cases hc
    | cons c0 rest ihw =>
      intro db' h c hc i hi
      rw [delWork_succ] at h
      cases hd : delWork fuel1 db (childrenOf db c0.id) with
      | none => rw [hd] at h; cases h
      | some db1 =>
        rw [hd] at h
        cases List.mem_cons.mp hc with
        | inr hcr => exact ihw _ db' h c hcr i hi
        | inl hce =>
          subst hce
          have hne : c.media.isEmpty = false := by
            cases hc2 : c.media with
            | nil =>
              rw [hc2] at hi
              cases hi
            | cons x xs => rfl
          rw [hne] at h
          have hstep : clearedAt (clearAlbumIds db1 c.media) i :=
            clearAlbumIds_cleared db1 c.media i hi
          have hstep2 : clearedAt (removeAlbum (clearAlbumIds db1 c.media) c.id) i := hstep
          exact clearedAt_frame (delWork_assets _ _ rest db' h) hstep2

/-- The captured member list of every strict descendant of a worklist element
is cleared in the resulting store, provided worklist records agree with the
store and album ids are unique. -/
theorem delWork_clear_desc :
    ∀ (fuel : Nat) (db : DB) (work : List Album) (db' : DB),
      uniqAlbums db →
      (∀ c ∈ work, ∀ r ∈ db.albums, r.id = c.id → r = c) →
      delWork fuel db work = some db' →
      ∀ c ∈ work, ∀ d ∈ db.albums, DescOf db c.id d.id →
        ∀ i ∈ d.media, clearedAt db' i := by
  intro fuel
  induction fuel with
  | zero =>
    intro db work db' hu hcons h c hc
    cases work with
    | nil => cases hc
    | cons c0 rest =>
      rw [delWork_zero] at h
      cases h
  | succ fuel1 ihf =>
    intro db work
    induction work generalizing db with
    | nil =>
      intro db' hu hcons h c hc
      cases hc
    | cons c0 rest ihw =>
      intro db' hu hcons h c hc d hd hdesc i hi
      have hfull := h
      rw [delWork_succ] at h
      cases hd1 : delWork fuel1 db (childrenOf db c0.id) with
      | none => rw [hd1] at h; cases h
      | some db1 =>
        rw [hd1] at h
        have hsub1 : db1.albums.Sublist db.albums := delWork_sublist fuel1 db _ db1 hd1
        have hmidsub : (removeAlbum
            (if c0.media.isEmpty then db1 else clearAlbumIds db1 c0.media)
              c0.id).albums.Sublist db1.albums := removeStep_sublist db1 c0.media c0.id
        have hpres : ∀ j, clearedAt db1 j → clearedAt db' j := by
          intro j hj
          have hj2 : clearedAt
              (if c0.media.isEmpty then db1 else clearAlbumIds db1 c0.media) j :=
            clearedAt_frame (clearStep_frame db1 c0.media) hj
          have hj3 : clearedAt (removeAlbum
              (if c0.media.isEmpty then db1 else clearAlbumIds db1 c0.media) c0.id) j := hj2
          exact clearedAt_frame (delWork_assets _ _ rest db' h) hj3
        have hconsChildren : ∀ c2 ∈ childrenOf db c0.id, ∀ r ∈ db.albums,
            r.id = c2.id → r = c2 :=
          fun c2 hc2 r hr hrid => keyInj hu hr (childrenOf_mem hc2).1 hrid
        have hheaddesc : ∀ d2 ∈ db.albums, DescOf db c0.id d2.id →
            ∀ j ∈ d2.media, clearedAt db' j := by
          intro d2 hd2 hdesc2 j hj
          obtain ⟨d0, hd0db, hd0p, hch0⟩ := DescOf_split hdesc2
          have hd0ch : d0 ∈ childrenOf db c0.id := childrenOf_mem_of hd0db hd0p
          cases hch0 with
          | inl he =>
            have hde : d2 = d0 := keyInj hu hd2 hd0db he
            subst hde
            exact hpres j (delWork_clear_work fuel1 db _ db1 hd1 d2 hd0ch j hj)
          | inr hdesc0 =>
            exact hpres j (ihf db (childrenOf db c0.id) db1 hu hconsChildren hd1
              d0 hd0ch d2 hd2 hdesc0 j hj)
        have hchainhead : ∀ d2 ∈ db.albums, Chain db d2.id c0.id →
            ∀ j ∈ d2.media, clearedAt db' j := by
          intro d2 hd2 hch2 j hj
          cases hch2 with
          | inl he =>
            have hd2c : d2 = c0 := hcons c0 (List.mem_cons_self _ _) d2 hd2 he
            subst hd2c
            exact delWork_clear_work (fuel1 + 1) db (d2 :: rest) db' hfull d2
              (List.mem_cons_self _ _) j hj
          | inr hdesc2 => exact hheaddesc d2 hd2 hdesc2 j hj
        cases List.mem_cons.mp hc with
        | inl hce =>
          subst hce
          exact hheaddesc d hd hdesc i hi
        | inr hcr =>
          cases DescOf_restrict (removeAlbum
              (if c0.media.isEmpty then db1 else clearAlbumIds db1 c0.media) c0.id) hdesc with
          | inl hin =>
            obtain ⟨r, hr, hrid⟩ := DescOf_inv hin
            have hrdb : r ∈ db.albums := hsub1.mem (hmidsub.mem hr)
            have hrd : r = d := keyInj hu hrdb hd hrid
            have hdmid : d ∈ (removeAlbum
                (if c0.media.isEmpty then db1 else clearAlbumIds db1 c0.media)
                  c0.id).albums := hrd ▸ hr
            have humid : uniqAlbums (removeAlbum
                (if c0.media.isEmpty then db1 else clearAlbumIds db1 c0.media) c0.id) :=
              uniqAlbums_sublist (hmidsub.trans hsub1) hu
            have hconsmid : ∀ c2 ∈ rest, ∀ r2 ∈ (removeAlbum
                (if c0.media.isEmpty then db1 else clearAlbumIds db1 c0.media)
                  c0.id).albums, r2.id = c2.id → r2 = c2 := by
              intro c2 hc2 r2 hr2 hr2id
              exact hcons c2 (List.mem_cons_of_mem _ hc2) r2
                (hsub1.mem (hmidsub.mem hr2)) hr2id
            exact ihw _ db' humid hconsmid h c hcr d hdmid hin i hi
          | inr hdd =>
            obtain ⟨m, hmdb, hmnot, hlow, hup⟩ := hdd
            have hmc : Chain db m.id c0.id := by
              by_cases hm1 : m ∈ db1.albums
              · left
                by_contra hne
                apply hmnot
                show m ∈ ((if c0.media.isEmpty then db1
                  else clearAlbumIds db1 c0.media).albums.filter (fun a => a.id ≠ c0.id))
                rw [clearStep_albums]
                exact List.mem_filter.mpr ⟨hm1, by simpa using hne⟩
              · have hdead1 : ¬ liveId db1 m.id := by
                  rintro ⟨r2, hr2, hr2id⟩
                  exact hm1 ((keyInj hu (hsub1.mem hr2) hmdb hr2id) ▸ hr2)
                obtain ⟨d0, hd0ch, hch0⟩ := delWork_sound fuel1 db _ db1 hd1 m hmdb hdead1
                obtain ⟨hd0db, hd0p⟩ := childrenOf_mem hd0ch
                exact Chain_trans hch0 (.inr (.child hd0db hd0p))
            exact hchainhead d hd (Chain_trans hlow hmc) i hi

/-- Certificate that the parent structure is well-founded downward: every
child's rank is below its parent's. -/
def descOkB (db : DB) (rank : Nat → Nat) : Bool :=
  db.albums.all (fun a => (childrenOf db a.id).all (fun c => decide (rank c.id < rank a.id)))

/-- Unpacking of the rank certificate. -/
theorem descOkB_spec {db : DB} {rank : Nat → Nat} (h : descOkB db rank = true) :
    ∀ a ∈ db.albums, ∀ c ∈ db.albums, c.parentAlbumId = some a.id →
      rank c.id < rank a.id := by
  intro a ha c hc hp
  have h1 := List.all_eq_true.mp h a ha
  have h2 := List.all_eq_true.mp h1 c (childrenOf_mem_of hc hp)
  exact of_decide_eq_true h2

/-- With a downward rank certificate and fuel above every worklist rank, the
worklist recursion terminates. -/
theorem delWork_isSome (db0 : DB) (rank : Nat → Nat)
    (hr : ∀ a ∈ db0.albums, ∀ c ∈ db0.albums, c.parentAlbumId = some a.id →
      rank c.id < rank a.id) :
    ∀ (fuel : Nat) (db : DB) (work : List Album),
      db.albums.Sublist db0.albums →
      (∀ c ∈ work, c ∈ db0.albums ∧ rank c.id < fuel) →
      (delWork fuel db work).isSome = true := by
  intro fuel
  induction fuel with
  | zero =>
    intro db work hsub hw
    cases work with
    | nil =>
      rw [delWork_nil]
      rfl
    | cons c rest => exact absurd (hw c (List.mem_cons_self _ _)).2 (Nat.not_lt_zero _)
  | succ fuel1 ihf =>
    intro db work
    induction work generalizing db with
    | nil =>
      intro hsub hw
      rw [delWork_nil]
      rfl
    | cons c rest ihw =>
      intro hsub hw
      have hc0 := hw c (List.mem_cons_self _ _)
      have hchl : ∀ d ∈ childrenOf db c.id, d ∈ db0.albums ∧ rank d.id < fuel1 := by
        intro d hdch
        obtain ⟨hddb, hdp⟩ := childrenOf_mem hdch
        have hddb0 : d ∈ db0.albums := hsub.mem hddb
        have hlt : rank d.id < rank c.id := hr c hc0.1 d hddb0 hdp
        exact ⟨hddb0, Nat.lt_of_lt_of_le hlt (Nat.lt_succ_iff.mp hc0.2)⟩
      have hhead := ihf db (childrenOf db c.id) hsub hchl
      cases hd1 : delWork fuel1 db (childrenOf db c.id) with
      | none =>
        rw [hd1] at hhead
        simp at hhead
      | some db1 =>
        have hsub1 : db1.albums.Sublist db0.albums :=
          (delWork_sublist fuel1 db _ db1 hd1).trans hsub
        have hmids : (removeAlbum
            (if c.media.isEmpty then db1 else clearAlbumIds db1 c.media)
              c.id).albums.Sublist db0.albums :=
          (removeStep_sublist db1 c.media c.id).trans hsub1
        have hrest := ihw (removeAlbum
            (if c.media.isEmpty then db1 else clearAlbumIds db1 c.media) c.id)
          hmids (fun c2 hc2 => hw c2 (List.mem_cons_of_mem _ hc2))
        rw [delWork_succ, hd1]
        exact hrest

/-- C4: deleting an owned folder removes it together with every folder in its
descendant set and nothing deletes asset records — the resulting asset list
is the original one with some `albumId` fields unset — while every asset id
listed in the deleted folder or in any deleted descendant has its `albumId`
unset afterwards.  The source recursion is unbounded, so termination is
stated under a rank certificate for the parent structure with fuel above
every rank. -/
theorem C4_recursive_delete (db : DB) (uid albumId fuel : Nat) (rank : Nat → Nat)
    (album : Album)
    (hu : uniqAlbums db)
    (hfind : findAlbum db albumId uid = some album)
    (hr : descOkB db rank = true)
    (hfuel : ∀ c ∈ db.albums, rank c.id < fuel) :
    ∃ db', deleteAlbum fuel db uid albumId = some (.ok (), db') ∧
      ¬ liveId db' albumId ∧
      (∀ g ∈ db'.albums, ¬ DescOf db albumId g.id) ∧
      (∀ g ∈ db'.albums, g ∈ db.albums) ∧
      List.Forall₂ AssetRel db.assets db'.assets ∧
      (∀ i ∈ album.media, clearedAt db' i) ∧
      (∀ d ∈ db.albums, DescOf db albumId d.id → ∀ i ∈ d.media, clearedAt db' i) := by
  have hw : ∀ c ∈ childrenOf db albumId, c ∈ db.albums ∧ rank c.id < fuel :=
    fun c hc => ⟨(childrenOf_mem hc).1, hfuel c (childrenOf_mem hc).1⟩
  have hsome := delWork_isSome db rank (descOkB_spec hr) fuel db (childrenOf db albumId)
    (List.Sublist.refl _) hw
  cases hd1 : delWork fuel db (childrenOf db albumId) with
  | none =>
    rw [hd1] at hsome
    simp at hsome
  | some db1 =>
    refine ⟨removeAlbum
      (if album.media.isEmpty then db1 else clearAlbumIds db1 album.media) albumId,
      ?_, ?_, ?_, ?_, ?_, ?_, ?_⟩
    · simp only [deleteAlbum, hfind, hd1]
    · rintro ⟨m, hm, hmid⟩
      have hmf := List.mem_filter.mp hm
      have : m.id ≠ albumId := by simpa using hmf.2
      exact this hmid
    · intro g hg hdesc
      have hg1 : g ∈ db1.albums := (removeStep_sublist db1 album.media albumId).mem hg
      obtain ⟨d, hddb, hdp, hch⟩ := DescOf_split hdesc
      have hdch : d ∈ childrenOf db albumId := childrenOf_mem_of hddb hdp
      have hdd : ¬ liveId db1 d.id := delWork_removes fuel db _ db1 hd1 d hdch
      exact delWork_avoid fuel db _ db1 hu hd1 g hg1 d.id ⟨d, hddb, rfl⟩ hdd hch
    · intro g hg
      exact (delWork_sublist fuel db _ db1 hd1).mem
        ((removeStep_sublist db1 album.media albumId).mem hg)
    · exact assetRel_forall2_trans (delWork_assets fuel db _ db1 hd1)
        (clearStep_frame db1 album.media)
    · intro i hi
      have hne : album.media.isEmpty = false := by
        cases hml : album.media with
        | nil =>
          rw [hml] at hi
          cases hi
        | cons x xs => rfl
      have hcl : clearedAt (clearAlbumIds db1 album.media) i :=
        clearAlbumIds_cleared db1 album.media i hi
      intro a ha haid
      have ha2 : a ∈ (if album.media.isEmpty then db1
        else clearAlbumIds db1 album.media).assets := ha
      rw [hne] at ha2
      exact hcl a ha2 haid
    · intro d hddb hdesc i hi
      obtain ⟨d0, hd0db, hd0p, hch0⟩ := DescOf_split hdesc
      have hd0ch : d0 ∈ childrenOf db albumId := childrenOf_mem_of hd0db hd0p
      have hconsChildren : ∀ c2 ∈ childrenOf db albumId, ∀ r ∈ db.albums,
          r.id = c2.id → r = c2 :=
        fun c2 hc2 r hrm hrid => keyInj hu hrm (childrenOf_mem hc2).1 hrid
      have hcl1 : clearedAt db1 i := by
        cases hch0 with
        | inl he =>
          have hde : d = d0 := keyInj hu hddb hd0db he
          subst hde
          exact delWork_clear_work fuel db _ db1 hd1 d hd0ch i hi
        | inr hdesc0 =>
          exact delWork_clear_desc fuel db _ db1 hu hconsChildren hd1
            d0 hd0ch d hddb hdesc0 i hi
      exact clearedAt_frame (clearStep_frame db1 album.media) hcl1

/-- Rank certificate for the example store: deeper folders rank lower. -/
def exRank : Nat → Nat := fun i => if i = 10 then 2 else if i = 20 then 1 else 0

/-- Concrete instance of the recursive-delete theorem: deleting folder 10 of
the example store succeeds, removes every folder (10, 20 and its descendant
30 were the only ones), and keeps all three asset records. -/
theorem C4_recursive_delete_witness :
    uniqAlbums exDb ∧ descOkB exDb exRank = true ∧
    (deleteAlbum 5 exDb 7 10).map (fun r => r.2.albums) = some [] ∧
    (deleteAlbum 5 exDb 7 10).map (fun r => r.2.assets.length) = some 3 := by
  obtain ⟨db', heq, hdead, hnodesc, hmem, hframe, _, _⟩ :=
    C4_recursive_delete exDb 7 10 5 exRank (mkAlbum 10 7 "F1" "u1" [1] none)
      (by decide) (by decide) (by decide) (by decide)
  have hempty : db'.albums = [] := by
    rw [List.eq_nil_iff_forall_not_mem]
    intro g hg
    have hgdb := hmem g hg
    have hl : g ∈ [mkAlbum 10 7 "F1" "u1" [1] none, mkAlbum 20 7 "F2" "" [] (some 10),
        mkAlbum 30 7 "F3" "" [] (some 20)] := hgdb
    simp only [List.mem_cons, List.not_mem_nil, or_false] at hl
    rcases hl with rfl | rfl | rfl
    · exact hdead ⟨_, hg, by decide⟩
    · exact hnodesc _ hg (.child (show _ ∈ exDb.albums by decide) (by decide))
    · exact hnodesc _ hg
        (.step (show _ ∈ exDb.albums by decide)
          (.child (show mkAlbum 20 7 "F2" "" [] (some 10) ∈ exDb.albums by decide)
            (by decide))
          (by decide))
  have hlen : db'.assets.length = 3 := by
    have h3 := hframe.length_eq
    exact h3.symm ▸ (by decide : exDb.assets.length = 3)
  refine ⟨by decide, by decide, ?_, ?_⟩
  · rw [heq]
    simp [hempty]
  · rw [heq]
    simp [hlen]
